import Mathlib

/-!
Shallow embedding of the voxel-engine core of `rust_voxel_engine`
(src/chunk.rs, src/chunk_manager.rs), used to check the natural-language
specification against the code.

Modelling conventions:
* `i32` values become `Int`; `usize`/`u32` array indices and packed vertex
  words become `Nat`.  All claim-relevant index arithmetic stays far below
  any overflow boundary, which is noted where it matters.
* The flat `[Block; N*N*N]` array is a total function `Nat → Block`;
  every access performed by the code is in bounds, so the out-of-bounds
  panic of Rust indexing is never exercised.
* `HashMap<IVec3, Chunk>` is an association list, `HashSet<IVec3>` a
  duplicate-free list whose head is the element returned by
  `iter().next()` (hash iteration order is arbitrary; the list order
  stands in for one such order), `VecDeque<IVec3>` a list with
  `push_back` appending and `pop_front` taking the head.
* The only floating-point computations feeding claim-relevant integer
  results are `world_to_chunk_pos` (an `i32 → f32` cast, an exact
  division by 32, `floor`, and a cast back) and the ray caster.  The
  cast `i32 → f32` is embedded exactly as round-to-nearest-even at 24
  significand bits (`roundf32`); the ray caster runs on exact rationals
  extended with infinities and NaN (`FP`), which agrees with `f32`
  whenever no inexact rounding occurs (true of every concrete run
  evaluated below, where all values are small integers or infinities).
-/

/-- `glam::IVec3`: a vector of three `i32` components. -/
structure IVec3 where
  x : Int
  y : Int
  z : Int
deriving DecidableEq, Repr

namespace IVec3

instance : Add IVec3 := ⟨fun a b => ⟨a.x + b.x, a.y + b.y, a.z + b.z⟩⟩
instance : Sub IVec3 := ⟨fun a b => ⟨a.x - b.x, a.y - b.y, a.z - b.z⟩⟩
instance : Neg IVec3 := ⟨fun a => ⟨-a.x, -a.y, -a.z⟩⟩

/-- `IVec3::ZERO`. -/
def zero : IVec3 := ⟨0, 0, 0⟩

/-- Scaling by an `i32` scalar (`position * CHUNK_SIZE as i32`). -/
def smul (a : IVec3) (k : Int) : IVec3 := ⟨a.x * k, a.y * k, a.z * k⟩

/-- `length_squared`, exact over `Int` (compare the modelling note on
floating point at the top of the file). -/
def lengthSq (a : IVec3) : Int := a.x * a.x + a.y * a.y + a.z * a.z

@[simp] theorem add_x (a b : IVec3) : (a + b).x = a.x + b.x := rfl
@[simp] theorem add_y (a b : IVec3) : (a + b).y = a.y + b.y := rfl
@[simp] theorem add_z (a b : IVec3) : (a + b).z = a.z + b.z := rfl

end IVec3

/-- `CHUNK_SIZE` from src/chunk.rs. -/
def CHUNK_SIZE : Nat := 32

/-- The `Block` enum from src/chunk.rs. -/
inductive Block where
  | AIR
  | DIRT
  | GRASS
  | STONE
  | LOG
  | PLANK
  | LEAVES
deriving DecidableEq, Repr

namespace Block

/-- `Block::get_uv`, the per-face texture index (a `u8`). -/
def get_uv : Block → Nat → Nat
  | AIR, _ => 0
  | GRASS, side => if side < 4 then 0 else if side = 5 then 1 else 2
  | DIRT, _ => 2
  | STONE, _ => 3
  | LOG, side => if side < 4 then 5 else 4
  | PLANK, _ => 6
  | LEAVES, _ => 7

end Block

/-- A GPU mesh handle (`ChunkMesh`); the wgpu buffers are opaque to the
core, so only the vertex/index counts are retained. -/
structure ChunkMesh where
  vertex_count : Nat
  index_count : Nat
deriving DecidableEq, Repr

/-- The `Vertex` struct from src/chunk.rs: a packed 32-bit word plus the
owning voxel's world position. -/
structure Vertex where
  packed_data : Nat
  voxel_position : IVec3
deriving DecidableEq, Repr

/-- `ChunkMeshData`: the CPU-side vertex/index lists produced by
`generate_mesh` before upload. -/
structure ChunkMeshData where
  vertices : List Vertex
  indices : List Nat
deriving DecidableEq, Repr

/-- The `Chunk` struct from src/chunk.rs.  The `bounding_box` field (an
`f32` AABB used only by frustum culling, which no claim touches) and the
GPU buffers inside the mesh are not modelled. -/
structure Chunk where
  position : IVec3
  world_position : IVec3
  blocks : Nat → Block
  is_empty : Bool
  mesh : Option ChunkMesh

namespace Chunk

/-- Flat index `CHUNK_SIZE * CHUNK_SIZE * z + CHUNK_SIZE * y + x`. -/
def blockIndex (x y z : Nat) : Nat :=
  CHUNK_SIZE * CHUNK_SIZE * z + CHUNK_SIZE * y + x

/-- Read the block stored at local cell `(x, y, z)`. -/
def blockAt (c : Chunk) (x y z : Nat) : Block :=
  c.blocks (blockIndex x y z)

/-- `self.blocks.iter().all(|b| *b == Block::AIR)`. -/
def allAir (bs : Nat → Block) : Bool :=
  (List.range (CHUNK_SIZE * CHUNK_SIZE * CHUNK_SIZE)).all
    (fun i => bs i == Block.AIR)

/-- The emptiness invariant of the spec: `is_empty` is `true` iff every
element of `blocks` equals AIR. -/
def emptyInv (c : Chunk) : Prop :=
  c.is_empty = allAir c.blocks

/-- `Chunk::set_block` from src/chunk.rs.  Returns the updated chunk
together with the `bool` the Rust method returns. -/
def set_block (c : Chunk) (position : IVec3) (block : Block) : Chunk × Bool :=
  let index := CHUNK_SIZE * CHUNK_SIZE * position.z.toNat
      + CHUNK_SIZE * position.y.toNat + position.x.toNat
  if c.blocks index ≠ block then
    let blocks := fun i => if i = index then block else c.blocks i
    ({ c with blocks := blocks, is_empty := allAir blocks }, true)
  else
    (c, false)

end Chunk

/-- The cells visited by the generation and meshing loops, in source
order (`x` outermost, then `y`, then `z`). -/
def allCells : List (Nat × Nat × Nat) :=
  (List.range CHUNK_SIZE).flatMap fun x =>
    (List.range CHUNK_SIZE).flatMap fun y =>
      (List.range CHUNK_SIZE).map fun z => (x, y, z)

theorem mem_allCells {x y z : Nat} (hx : x < CHUNK_SIZE) (hy : y < CHUNK_SIZE)
    (hz : z < CHUNK_SIZE) : (x, y, z) ∈ allCells := by
  simp only [allCells, List.mem_flatMap, List.mem_map, List.mem_range]
  exact ⟨x, hx, y, hy, z, hz, rfl⟩

theorem bounds_of_mem_allCells {p : Nat × Nat × Nat} (h : p ∈ allCells) :
    p.1 < CHUNK_SIZE ∧ p.2.1 < CHUNK_SIZE ∧ p.2.2 < CHUNK_SIZE := by
  simp only [allCells, List.mem_flatMap, List.mem_map, List.mem_range] at h
  obtain ⟨x, hx, y, hy, z, hz, rfl⟩ := h
  exact ⟨hx, hy, hz⟩

theorem allCells_nodup : allCells.Nodup := by
  refine List.nodup_flatMap.2 ⟨fun x _ => ?_, ?_⟩
  · refine List.nodup_flatMap.2 ⟨fun y _ => ?_, ?_⟩
    · exact (List.nodup_range _).map fun a b h => by
        injection h with _ h; injection h
    · refine List.Pairwise.imp ?_ (List.nodup_range _)
      intro a b hne p hp hq
      simp only [List.mem_map, List.mem_range] at hp hq
      obtain ⟨za, _, rfl⟩ := hp
      obtain ⟨zb, _, heq⟩ := hq
      injection heq with _ heq
      exact absurd (by injection heq with h1 h2; exact h1.symm) hne
  · refine List.Pairwise.imp ?_ (List.nodup_range _)
    intro a b hne p hp hq
    simp only [List.mem_flatMap, List.mem_map, List.mem_range] at hp hq
    obtain ⟨ya, _, za, _, rfl⟩ := hp
    obtain ⟨yb, _, zb, _, heq⟩ := hq
    exact absurd (by injection heq with h1 h2; exact h1.symm) hne

namespace Chunk

/-- The body of the per-cell generation loop of `Chunk::new`.  The two
`f64` Perlin-noise expressions are abstracted as `Nat`-valued oracles:
`caveVal p` is the value of `((noise.get(p3d) + 1.0) / 2.0 * 31.0) as u32`
and `hillVal p` the value of `((noise.get(p2d) + 1.0) / 2.0 * 32.0) as u32`
at world voxel position `p`.  Every other step of the loop is kept
literally: which block is written and how `is_empty` is updated depend
only on the integer comparisons the source performs on those values. -/
def newStep (caveVal hillVal : IVec3 → Nat) (world_position : IVec3)
    (c : Chunk) (cell : Nat × Nat × Nat) : Chunk :=
  let (x, y, z) := cell
  let voxel_position : IVec3 := ⟨(x : Int), (y : Int), (z : Int)⟩ + world_position
  let write := fun (b : Block) =>
    { c with blocks := fun i => if i = blockIndex x y z then b else c.blocks i,
             is_empty := false }
  if world_position.y < 0 then
    if caveVal voxel_position > 16 then write Block.STONE else c
  else
    let val := hillVal voxel_position
    if val = voxel_position.y.toNat then write Block.GRASS
    else if val > voxel_position.y.toNat then write Block.DIRT
    else c

/-- `Chunk::new` from src/chunk.rs, parameterized by the noise oracles
(see `newStep`). -/
def new (caveVal hillVal : IVec3 → Nat) (position : IVec3) : Chunk :=
  let world_position := position.smul (CHUNK_SIZE : Int)
  let init : Chunk :=
    { position := position
      world_position := world_position
      blocks := fun _ => Block.AIR
      is_empty := true
      mesh := none }
  allCells.foldl (newStep caveVal hillVal world_position) init

/-- The distance between consecutive `f32` values at magnitude `b`, for
`2^24 < b < 2^31` (the only magnitudes an `i32` reaches beyond the
exactly-representable range). -/
def f32ulp (b : Nat) : Nat :=
  if b < 2 ^ 25 then 2
  else if b < 2 ^ 26 then 4
  else if b < 2 ^ 27 then 8
  else if b < 2 ^ 28 then 16
  else if b < 2 ^ 29 then 32
  else if b < 2 ^ 30 then 64
  else 128

/-- Round a magnitude `2^24 < b < 2^31` to the nearest multiple of its
`f32` spacing, ties to even. -/
def roundMag (b : Nat) : Nat :=
  let u := f32ulp b
  let q := b / u
  let r := b % u
  if 2 * r < u then q * u
  else if 2 * r > u then (q + 1) * u
  else if q % 2 = 0 then q * u else (q + 1) * u

/-- Round-to-nearest-even of an integer to 24 significand bits: the exact
value of the Rust cast `n as f32` for any `i32` input `n` (magnitudes at
or below `2^24` are exact; `f32ulp`/`roundMag` cover the rest of the
`i32` range). -/
def roundf32 (n : Int) : Int :=
  if n.natAbs ≤ 2 ^ 24 then n else n.sign * (roundMag n.natAbs : Int)

/-- `Chunk::world_to_chunk_pos`:
`(world_position.as_vec3() / CHUNK_SIZE as f32).floor().as_ivec3()`.
The `i32 → f32` cast is `roundf32`; the division by 32 of a float with
at most 24 significand bits is exact (an exponent shift), so the `floor`
of the quotient is exact floor division of the rounded value. -/
def world_to_chunk_pos (world_position : IVec3) : IVec3 :=
  ⟨(roundf32 world_position.x).fdiv (CHUNK_SIZE : Int),
   (roundf32 world_position.y).fdiv (CHUNK_SIZE : Int),
   (roundf32 world_position.z).fdiv (CHUNK_SIZE : Int)⟩

/-- One component of `Chunk::world_to_local_pos`: Rust `%` is the
truncated remainder (`Int.tmod`), then negative results are shifted up
by `CHUNK_SIZE`. -/
def localComp (v : Int) : Int :=
  if v.tmod (CHUNK_SIZE : Int) < 0 then v.tmod (CHUNK_SIZE : Int) + (CHUNK_SIZE : Int)
  else v.tmod (CHUNK_SIZE : Int)

/-- `Chunk::world_to_local_pos` from src/chunk.rs. -/
def world_to_local_pos (world_position : IVec3) : IVec3 :=
  ⟨localComp world_position.x, localComp world_position.y,
   localComp world_position.z⟩

end Chunk

/-- The `CUBE_VERTICES` table of `generate_mesh`. -/
def CUBE_VERTICES : Nat → Nat × Nat × Nat
  | 0 => (0, 0, 0)
  | 1 => (1, 0, 0)
  | 2 => (1, 1, 0)
  | 3 => (0, 1, 0)
  | 4 => (0, 0, 1)
  | 5 => (1, 0, 1)
  | 6 => (1, 1, 1)
  | _ => (0, 1, 1)

/-- The `FACE_INDICES` table of `generate_mesh` (row `face`, column `i`). -/
def FACE_INDICES : Nat → Nat → Nat
  | 0, 0 => 0 | 0, 1 => 1 | 0, 2 => 2 | 0, _ => 3
  | 1, 0 => 5 | 1, 1 => 4 | 1, 2 => 7 | 1, _ => 6
  | 2, 0 => 4 | 2, 1 => 0 | 2, 2 => 3 | 2, _ => 7
  | 3, 0 => 1 | 3, 1 => 5 | 3, 2 => 6 | 3, _ => 2
  | 4, 0 => 4 | 4, 1 => 5 | 4, 2 => 1 | 4, _ => 0
  | _, 0 => 3 | _, 1 => 2 | _, 2 => 6 | _, _ => 7

namespace Chunk

/-- The `(nx, ny, nz)` adjacent-cell offsets of the `match face` in
`generate_mesh` (face 0 front `z-1`, 1 back `z+1`, 2 left `x-1`,
3 right `x+1`, 4 bottom `y-1`, 5 top `y+1`). -/
def adjCell (x y z : Nat) (face : Nat) : Int × Int × Int :=
  let nx : Int := x
  let ny : Int := y
  let nz : Int := z
  match face with
  | 0 => (nx, ny, nz - 1)
  | 1 => (nx, ny, nz + 1)
  | 2 => (nx - 1, ny, nz)
  | 3 => (nx + 1, ny, nz)
  | 4 => (nx, ny - 1, nz)
  | _ => (nx, ny + 1, nz)

/-- The in-chunk bounds test on the adjacent cell, exactly as written in
`generate_mesh`. -/
def adjInBounds (n : Int × Int × Int) : Bool :=
  0 ≤ n.1 && n.1 < (CHUNK_SIZE : Int) && 0 ≤ n.2.1 &&
    n.2.1 < (CHUNK_SIZE : Int) && 0 ≤ n.2.2 && n.2.2 < (CHUNK_SIZE : Int)

/-- The wrap of one out-of-range coordinate into the neighboring chunk's
local space: `pos %= CHUNK_SIZE` (Rust truncated remainder) followed by
`if v < 0 { v + CHUNK_SIZE }`. -/
def wrapComp (v : Int) : Int :=
  let w := v.tmod (CHUNK_SIZE : Int)
  if w < 0 then w + (CHUNK_SIZE : Int) else w

/-- The block seen across the face boundary in the neighbor chunk. -/
def neighborBlockAt (ch : Chunk) (n : Int × Int × Int) : Block :=
  ch.blocks (CHUNK_SIZE * CHUNK_SIZE * (wrapComp n.2.2).toNat
    + CHUNK_SIZE * (wrapComp n.2.1).toNat + (wrapComp n.1).toNat)

/-- The final value of `render_face` for cell `(x, y, z)` and `face` in
`generate_mesh`: `true` unless a solid block is found in the adjacent
cell, looked up in this chunk when in bounds and in `neighbors[face]`
when out of bounds (a missing neighbor leaves `render_face` as `true`). -/
def renderFace (c : Chunk) (nb : Nat → Option Chunk) (x y z face : Nat) : Bool :=
  let n := adjCell x y z face
  if adjInBounds n then
    c.blocks (CHUNK_SIZE * CHUNK_SIZE * n.2.2.toNat
      + CHUNK_SIZE * n.2.1.toNat + n.1.toNat) == Block.AIR
  else
    match nb face with
    | some ch => neighborBlockAt ch n == Block.AIR
    | none => true

/-- Whether processing cell `(x, y, z)` and `face` sets the
`missing_neighors` flag: the cell is solid, the adjacent cell is outside
the chunk, and `neighbors[face]` is `None`. -/
def missingAt (c : Chunk) (nb : Nat → Option Chunk) (cf : (Nat × Nat × Nat) × Nat) : Bool :=
  let ((x, y, z), face) := cf
  c.blockAt x y z != Block.AIR && !adjInBounds (adjCell x y z face) &&
    (nb face).isNone

/-- Whether cell `(x, y, z)` emits a quad for `face`: the cell is solid
(the `continue` on AIR) and `render_face` survived the culling checks. -/
def emitFace (c : Chunk) (nb : Nat → Option Chunk) (cf : (Nat × Nat × Nat) × Nat) : Bool :=
  let ((x, y, z), face) := cf
  c.blockAt x y z != Block.AIR && renderFace c nb x y z face

/-- The four packed vertices pushed for an emitted face, in push order. -/
def faceVerts (c : Chunk) (cf : (Nat × Nat × Nat) × Nat) : List Vertex :=
  let ((x, y, z), face) := cf
  (List.range 4).map fun i =>
    let cv := CUBE_VERTICES (FACE_INDICES face i)
    let px := cv.1 + x
    let py := cv.2.1 + y
    let pz := cv.2.2 + z
    let position := (px <<< 12) ||| (py <<< 6) ||| pz
    let normal_position := (face <<< 18) ||| position
    let uv := (c.blockAt x y z).get_uv face
    let packed_data := (uv <<< 21) ||| normal_position
    { packed_data := packed_data
      voxel_position := c.world_position + ⟨(x : Int), (y : Int), (z : Int)⟩ }

/-- The six indices pushed for an emitted face whose `base_index` is `n`. -/
def faceIdx (n : Nat) : List Nat :=
  [n, n + 1, n + 2, n, n + 2, n + 3]

/-- The index list produced by `k` consecutive emitted faces starting at
vertex count `n`. -/
def idxList (n : Nat) : Nat → List Nat
  | 0 => []
  | k + 1 => faceIdx n ++ idxList (n + 4) k

/-- The `(voxel, face)` pairs visited by the mesh loops, in source order. -/
def cellFaces : List ((Nat × Nat × Nat) × Nat) :=
  allCells.flatMap fun p => (List.range 6).map fun f => (p, f)

/-- The accumulator of the mesh loops: vertex list, index list,
`vertex_count`, `missing_neighors`. -/
def MeshAcc := List Vertex × List Nat × Nat × Bool

/-- The per-`(voxel, face)` body of the mesh loops: append the quad when
`render_face` holds and the cell is solid, and fold in the
missing-neighbor flag. -/
def meshStep (c : Chunk) (nb : Nat → Option Chunk)
    (acc : MeshAcc) (cf : (Nat × Nat × Nat) × Nat) : MeshAcc :=
  let (verts, inds, count, miss) := acc
  let miss := miss || missingAt c nb cf
  if emitFace c nb cf then
    (verts ++ faceVerts c cf, inds ++ faceIdx count, count + 4, miss)
  else
    (verts, inds, count, miss)

/-- `Chunk::generate_mesh` from src/chunk.rs: `(None, false)` for an
empty chunk, otherwise the fold of `meshStep` over all voxel/face pairs,
returning the collected mesh data and the missing-neighbor flag. -/
def generate_mesh (c : Chunk) (nb : Nat → Option Chunk) :
    Option ChunkMeshData × Bool :=
  if c.is_empty then (none, false)
  else
    let r := cellFaces.foldl (meshStep c nb) ([], [], 0, false)
    (some { vertices := r.1, indices := r.2.1 }, r.2.2.2)

/-- The faces a mesh pass emits, as a filtered sublist of `cellFaces`. -/
def meshFaces (c : Chunk) (nb : Nat → Option Chunk) :
    List ((Nat × Nat × Nat) × Nat) :=
  cellFaces.filter (emitFace c nb)

theorem meshFold_spec (c : Chunk) (nb : Nat → Option Chunk) :
    ∀ (l : List ((Nat × Nat × Nat) × Nat)) (V : List Vertex) (I : List Nat)
      (n : Nat) (m : Bool),
      l.foldl (meshStep c nb) (V, I, n, m) =
        (V ++ (l.filter (emitFace c nb)).flatMap (faceVerts c),
         I ++ idxList n (l.filter (emitFace c nb)).length,
         n + 4 * (l.filter (emitFace c nb)).length,
         m || l.any (missingAt c nb)) := by
  intro l
  induction l with
  | nil => intro V I n m; simp [idxList]
  | cons a t ih =>
    intro V I n m
    by_cases ha : emitFace c nb a
    · simp only [List.foldl_cons, meshStep, ha, if_pos, List.filter_cons_of_pos ha, ih,
        List.flatMap_cons, List.any_cons, idxList, List.length_cons]
      refine congrArg₂ _ (by rw [List.append_assoc]) ?_
      refine congrArg₂ _ (by rw [List.append_assoc]) ?_
      refine congrArg₂ _ (by ring) ?_
      rw [Bool.or_assoc]
    · simp only [List.foldl_cons, meshStep, if_neg ha, List.filter_cons_of_neg ha,
        List.any_cons]
      rw [ih, Bool.or_assoc]

/-- The mesh of a non-empty chunk, described face by face: its vertices
are the quads of `meshFaces` in order, its indices the matching
`idxList`, and the missing-neighbor flag is an `any` over all
voxel/face pairs. -/
theorem generate_mesh_eq (c : Chunk) (nb : Nat → Option Chunk)
    (h : c.is_empty = false) :
    generate_mesh c nb =
      (some { vertices := (meshFaces c nb).flatMap (faceVerts c),
              indices := idxList 0 (meshFaces c nb).length },
       cellFaces.any (missingAt c nb)) := by
  have hfold := meshFold_spec c nb cellFaces [] [] 0 false
  unfold generate_mesh
  rw [if_neg (by simp [h]), hfold]
  simp [meshFaces]

end Chunk

theorem cellFaces_nodup : Chunk.cellFaces.Nodup := by
  refine List.nodup_flatMap.2 ⟨fun p _ => ?_, ?_⟩
  · exact (List.nodup_range _).map fun a b h => by injection h
  · refine List.Pairwise.imp ?_ allCells_nodup
    intro a b hne q hp hq
    simp only [List.mem_map, List.mem_range] at hp hq
    obtain ⟨fa, _, rfl⟩ := hp
    obtain ⟨fb, _, heq⟩ := hq
    exact absurd (by injection heq with h1 h2; exact h1.symm) hne

theorem mem_cellFaces {x y z f : Nat} (hx : x < CHUNK_SIZE) (hy : y < CHUNK_SIZE)
    (hz : z < CHUNK_SIZE) (hf : f < 6) : ((x, y, z), f) ∈ Chunk.cellFaces := by
  simp only [Chunk.cellFaces, List.mem_flatMap, List.mem_map, List.mem_range]
  exact ⟨(x, y, z), mem_allCells hx hy hz, f, hf, rfl⟩

/-- `Chunk::load_mesh`: attach the uploaded mesh, or clear it when either
list is empty (the upload collaborator is a no-op then). -/
def Chunk.load_mesh (c : Chunk) (mesh_data : ChunkMeshData) : Chunk :=
  if mesh_data.vertices.length = 0 ∨ mesh_data.indices.length = 0 then
    { c with mesh := none }
  else
    { c with mesh := some { vertex_count := mesh_data.vertices.length,
                            index_count := mesh_data.indices.length } }

/-- Lookup in the association list modelling `HashMap<IVec3, Chunk>`. -/
def mapLookup : List (IVec3 × Chunk) → IVec3 → Option Chunk
  | [], _ => none
  | kv :: t, k => if kv.1 = k then some kv.2 else mapLookup t k

/-- `HashMap::contains_key`. -/
def mapContains (m : List (IVec3 × Chunk)) (k : IVec3) : Bool :=
  (mapLookup m k).isSome

/-- In-place update of the value stored under an existing key (the model
of mutation through `get_mut`). -/
def mapSet : List (IVec3 × Chunk) → IVec3 → Chunk → List (IVec3 × Chunk)
  | [], _, _ => []
  | kv :: t, k, v => if kv.1 = k then (k, v) :: t else kv :: mapSet t k v

/-- `HashSet::insert` on the list model: append when absent. -/
def hsInsert (s : List IVec3) (v : IVec3) : List IVec3 :=
  if v ∈ s then s else s ++ [v]

/-- The `ChunkManager` struct from src/chunk_manager.rs (collection
representations as described at the top of the file). -/
structure ChunkManager where
  chunk_map : List (IVec3 × Chunk)
  chunk_data_load_queue : List IVec3
  chunk_mesh_load_queue : List IVec3
  chunk_mesh_reload_queue : List IVec3
  chunk_neighbor_loaded_queue : List IVec3
  chunks_with_missing_neighbors : List IVec3
  render_distance : Int

namespace ChunkManager

/-- `ChunkManager::new`. -/
def new (render_distance : Int) : ChunkManager :=
  { chunk_map := []
    chunk_data_load_queue := []
    chunk_mesh_load_queue := []
    chunk_mesh_reload_queue := []
    chunk_neighbor_loaded_queue := []
    chunks_with_missing_neighbors := []
    render_distance := render_distance }

/-- `ChunkManager::get_block` from src/chunk_manager.rs. -/
def get_block (st : ChunkManager) (pos : IVec3) : Option Block :=
  let chunk_pos := Chunk.world_to_chunk_pos pos
  match mapLookup st.chunk_map chunk_pos with
  | some chunk =>
    let inner_pos := Chunk.world_to_local_pos pos
    some (chunk.blocks (CHUNK_SIZE * CHUNK_SIZE * inner_pos.z.toNat
      + CHUNK_SIZE * inner_pos.y.toNat + inner_pos.x.toNat))
  | none => none

/-- The direction array iterated by `ChunkManager::set_block`
(`NEG_X, X, NEG_Y, Y, NEG_Z, Z`). -/
def sixDirs : List IVec3 :=
  [⟨-1, 0, 0⟩, ⟨1, 0, 0⟩, ⟨0, -1, 0⟩, ⟨0, 1, 0⟩, ⟨0, 0, -1⟩, ⟨0, 0, 1⟩]

/-- `ChunkManager::set_block` from src/chunk_manager.rs. -/
def set_block (st : ChunkManager) (position : IVec3) (block : Block) :
    ChunkManager :=
  let chunk_pos := Chunk.world_to_chunk_pos position
  let inner_pos := Chunk.world_to_local_pos position
  match mapLookup st.chunk_map chunk_pos with
  | none => st
  | some chunk =>
    let r := chunk.set_block inner_pos block
    let st := { st with chunk_map := mapSet st.chunk_map chunk_pos r.1 }
    if r.2 then
      let q0 := hsInsert st.chunk_mesh_reload_queue chunk_pos
      let st := { st with chunk_mesh_reload_queue := q0 }
      sixDirs.foldl (fun st dir =>
        let neighbor_pos := chunk_pos + dir
        if mapContains st.chunk_map neighbor_pos then
          let q1 := hsInsert st.chunk_mesh_reload_queue neighbor_pos
          { st with chunk_mesh_reload_queue := q1 }
        else st) st
    else st

/-- The per-axis window test repeated by every `retain` closure in
`update_around`; it holds exactly when the Chebyshev distance between
`q` and `position` is at most `rd` (for `rd ≥ 0`). -/
def withinWindow (rd : Int) (position q : IVec3) : Bool :=
  q.x ≤ position.x + rd && q.x ≥ position.x - rd &&
  q.y ≤ position.y + rd && q.y ≥ position.y - rd &&
  q.z ≤ position.z + rd && q.z ≥ position.z - rd

/-- The inclusive integer range `a..=b` as a list. -/
def intRangeClosed (a b : Int) : List Int :=
  (List.range (b + 1 - a).toNat).map fun (i : Nat) => a + (i : Int)

/-- The offsets visited by the triple `for` loop of `update_around`, in
loop order. -/
def windowOffsets (rd : Int) : List IVec3 :=
  (intRangeClosed (-rd) rd).flatMap fun x =>
    (intRangeClosed (-rd) rd).flatMap fun y =>
      (intRangeClosed (-rd) rd).map fun z => ⟨x, y, z⟩

/-- `ChunkManager::update_around` from src/chunk_manager.rs.  The final
`sort_by` compares `f32` squared lengths; the model compares the exact
integer squared lengths, which only permutes the queue differently when
the `f32` comparison of two keys is inexact — membership, which is all
the claims about this function concern, is unaffected. -/
def update_around (st : ChunkManager) (position : IVec3) : ChunkManager :=
  let rd := st.render_distance
  let q1 := st.chunk_data_load_queue.filter (withinWindow rd position)
  let st := { st with chunk_data_load_queue := q1 }
  let q2 := st.chunk_mesh_load_queue.filter (withinWindow rd position)
  let st := { st with chunk_mesh_load_queue := q2 }
  let m3 := st.chunk_map.filter (fun kv => withinWindow rd position kv.2.position)
  let st := { st with chunk_map := m3 }
  let q4 := st.chunk_neighbor_loaded_queue.filter (withinWindow rd position)
  let st := { st with chunk_neighbor_loaded_queue := q4 }
  let q5 := st.chunks_with_missing_neighbors.filter (withinWindow rd position)
  let st := { st with chunks_with_missing_neighbors := q5 }
  let st := (windowOffsets rd).foldl (fun st off =>
    let chunk_pos := off + position
    if !mapContains st.chunk_map chunk_pos &&
        !st.chunk_data_load_queue.contains chunk_pos then
      let q6 := st.chunk_data_load_queue ++ [chunk_pos]
      { st with chunk_data_load_queue := q6 }
    else st) st
  let sorted := List.insertionSort
    (fun a b => (a - position).lengthSq ≤ (b - position).lengthSq)
    st.chunk_data_load_queue
  { st with chunk_data_load_queue := sorted }

/-- The `neighbors` array built per meshing task, in the source's order
(front `-Z`, back `+Z`, left `-X`, right `+X`, bottom `-Y`, top `+Y`). -/
def neighborsOf (m : List (IVec3 × Chunk)) (position : IVec3) :
    Nat → Option Chunk
  | 0 => mapLookup m (position + ⟨0, 0, -1⟩)
  | 1 => mapLookup m (position + ⟨0, 0, 1⟩)
  | 2 => mapLookup m (position + ⟨-1, 0, 0⟩)
  | 3 => mapLookup m (position + ⟨1, 0, 0⟩)
  | 4 => mapLookup m (position + ⟨0, -1, 0⟩)
  | _ => mapLookup m (position + ⟨0, 1, 0⟩)

/-- The ordered task list of one `build_chunk_mesh_in_queue` call: up to
`amount` coordinates popped from the reload set, then plain loads up to
the remaining budget chained before the reloads, then neighbor-unblocked
retries up to what is left. -/
def mesh_tasks (st : ChunkManager) (amount : Nat) : List IVec3 :=
  let reload_tasks := st.chunk_mesh_reload_queue.take amount
  let all_tasks :=
    st.chunk_mesh_load_queue.take (amount - reload_tasks.length) ++ reload_tasks
  all_tasks ++ st.chunk_neighbor_loaded_queue.take (amount - all_tasks.length)

/-- The first half of the result-application step: record or clear the
coordinate in `chunks_with_missing_neighbors` according to the returned
flag. -/
def updateMissing (st : ChunkManager) (pos : IVec3) (missing_neighbors : Bool) :
    ChunkManager :=
  if missing_neighbors then
    let m := hsInsert st.chunks_with_missing_neighbors pos
    { st with chunks_with_missing_neighbors := m }
  else
    let m := st.chunks_with_missing_neighbors.erase pos
    { st with chunks_with_missing_neighbors := m }

/-- The sequential fold step applying one parallel meshing result:
update the missing-neighbor set, then attach the mesh to the backing
chunk — or, when the chunk is gone, push the coordinate back onto the
data-load queue. -/
def applyMeshResult (st : ChunkManager)
    (r : IVec3 × Option ChunkMeshData × Bool) : ChunkManager :=
  let (pos, mesh, missing_neighbors) := r
  let st := updateMissing st pos missing_neighbors
  match mapLookup st.chunk_map pos with
  | some chunk =>
    match mesh with
    | some mesh =>
      { st with chunk_map := mapSet st.chunk_map pos (chunk.load_mesh mesh) }
    | none =>
      if chunk.is_empty then
        { st with chunk_map := mapSet st.chunk_map pos { chunk with mesh := none } }
      else st
  | none =>
    let q := st.chunk_data_load_queue ++ [pos]
    { st with chunk_data_load_queue := q }

/-- `ChunkManager::build_chunk_mesh_in_queue` from src/chunk_manager.rs:
pop the task batch (see `mesh_tasks`), mesh every task against the
currently loaded neighbors, and fold the results back in sequentially. -/
def build_chunk_mesh_in_queue (st : ChunkManager) (amount : Nat) :
    ChunkManager :=
  let reload_len := (st.chunk_mesh_reload_queue.take amount).length
  let load_len :=
    (st.chunk_mesh_load_queue.take (amount - reload_len)).length
  let st1 := { st with
    chunk_mesh_reload_queue := st.chunk_mesh_reload_queue.drop amount
    chunk_mesh_load_queue := st.chunk_mesh_load_queue.drop (amount - reload_len)
    chunk_neighbor_loaded_queue := st.chunk_neighbor_loaded_queue.drop (amount - (load_len + reload_len)) }
  let meshes := (mesh_tasks st amount).map fun position =>
    match mapLookup st1.chunk_map position with
    | some chunk =>
      (position, Chunk.generate_mesh chunk (neighborsOf st1.chunk_map position))
    | none => (position, (none, false))
  meshes.foldl (fun st r => applyMeshResult st (r.1, r.2.1, r.2.2)) st1

end ChunkManager

/-- `f32` values as exact rationals extended with the two infinities and
NaN.  Signed zero is collapsed to `fin 0` (no expression evaluated by the
claims below produces `-0.0`).  Arithmetic on `fin` values is exact
rather than rounded; this coincides with `f32` whenever the exact result
is representable, which holds for every operation the concrete runs
below perform (small integers, exact reciprocals of 1, and infinities). -/
inductive FP where
  | fin : ℚ → FP
  | inf : FP
  | ninf : FP
  | nan : FP
deriving DecidableEq, Repr

namespace FP

/-- `f32::MAX` is exactly `(2^24 - 1) * 2^104`. -/
def f32max : ℚ := (2 ^ 24 - 1) * 2 ^ 104

def add : FP → FP → FP
  | fin a, fin b => fin (a + b)
  | fin _, inf => inf
  | inf, fin _ => inf
  | fin _, ninf => ninf
  | ninf, fin _ => ninf
  | inf, inf => inf
  | ninf, ninf => ninf
  | _, _ => nan

def sub : FP → FP → FP
  | fin a, fin b => fin (a - b)
  | fin _, inf => ninf
  | inf, fin _ => inf
  | fin _, ninf => inf
  | ninf, fin _ => ninf
  | inf, ninf => inf
  | ninf, inf => ninf
  | _, _ => nan

def mul : FP → FP → FP
  | fin a, fin b => fin (a * b)
  | fin a, inf => if a = 0 then nan else if 0 < a then inf else ninf
  | inf, fin a => if a = 0 then nan else if 0 < a then inf else ninf
  | fin a, ninf => if a = 0 then nan else if 0 < a then ninf else inf
  | ninf, fin a => if a = 0 then nan else if 0 < a then ninf else inf
  | inf, inf => inf
  | ninf, ninf => inf
  | inf, ninf => ninf
  | ninf, inf => ninf
  | _, _ => nan

/-- IEEE division; `a / +0` carries the sign of `a` (only `+0` exists in
the model, see the type's doc comment). -/
def div : FP → FP → FP
  | fin a, fin b =>
    if b = 0 then (if a = 0 then nan else if 0 < a then inf else ninf)
    else fin (a / b)
  | fin _, inf => fin 0
  | fin _, ninf => fin 0
  | inf, fin b => if 0 ≤ b then inf else ninf
  | ninf, fin b => if 0 ≤ b then ninf else inf
  | _, _ => nan

instance : Add FP := ⟨add⟩
instance : Sub FP := ⟨sub⟩
instance : Mul FP := ⟨mul⟩
instance : Div FP := ⟨div⟩

def abs : FP → FP
  | fin a => fin |a|
  | inf => inf
  | ninf => inf
  | nan => nan

/-- `f32::signum`: `1` for positive values and `+0`, `-1` for negative
values, NaN for NaN. -/
def signum : FP → FP
  | fin a => if a < 0 then fin (-1) else fin 1
  | inf => fin 1
  | ninf => fin (-1)
  | nan => nan

/-- IEEE `<`: false whenever either operand is NaN. -/
def lt : FP → FP → Bool
  | fin a, fin b => a < b
  | fin _, inf => true
  | ninf, fin _ => true
  | ninf, inf => true
  | _, _ => false

/-- `f32::min` (returns the other operand when one is NaN). -/
def fmin : FP → FP → FP
  | nan, b => b
  | a, nan => a
  | a, b => if lt a b then a else b

/-- `f32::max` (returns the other operand when one is NaN). -/
def fmax : FP → FP → FP
  | nan, b => b
  | a, nan => a
  | a, b => if lt a b then b else a

def floor : FP → FP
  | fin a => fin ⌊a⌋
  | x => x

/-- The saturating Rust cast `as i32` (truncation toward zero; NaN maps
to 0). -/
def toI32 : FP → Int
  | fin a =>
    let t := a.num.tdiv a.den
    if t < -(2 ^ 31) then -(2 ^ 31) else if t > 2 ^ 31 - 1 then 2 ^ 31 - 1 else t
  | inf => 2 ^ 31 - 1
  | ninf => -(2 ^ 31)
  | nan => 0

/-- The exact cast `i32 → f32` (see `Chunk.roundf32`). -/
def ofInt (n : Int) : FP := fin (Chunk.roundf32 n)

end FP

/-- A `glam::Vec3` of `f32` components in the `FP` model. -/
structure FVec3 where
  x : FP
  y : FP
  z : FP
deriving DecidableEq, Repr

namespace FVec3

def splat (v : FP) : FVec3 := ⟨v, v, v⟩
def add (a b : FVec3) : FVec3 := ⟨a.x + b.x, a.y + b.y, a.z + b.z⟩
def sub (a b : FVec3) : FVec3 := ⟨a.x - b.x, a.y - b.y, a.z - b.z⟩
def div (a b : FVec3) : FVec3 := ⟨a.x / b.x, a.y / b.y, a.z / b.z⟩
def abs (a : FVec3) : FVec3 := ⟨a.x.abs, a.y.abs, a.z.abs⟩
def signum (a : FVec3) : FVec3 := ⟨a.x.signum, a.y.signum, a.z.signum⟩
def fmin (a b : FVec3) : FVec3 := ⟨a.x.fmin b.x, a.y.fmin b.y, a.z.fmin b.z⟩
def fmax (a b : FVec3) : FVec3 := ⟨a.x.fmax b.x, a.y.fmax b.y, a.z.fmax b.z⟩
def floor (a : FVec3) : FVec3 := ⟨a.x.floor, a.y.floor, a.z.floor⟩
def as_ivec3 (a : FVec3) : IVec3 := ⟨a.x.toI32, a.y.toI32, a.z.toI32⟩

/-- `IVec3::as_vec3`. -/
def ofIVec3 (v : IVec3) : FVec3 := ⟨FP.ofInt v.x, FP.ofInt v.y, FP.ofInt v.z⟩

end FVec3

namespace ChunkManager

/-- The loop state of the ray-cast DDA. -/
structure RayState where
  voxel : IVec3
  t_max : FVec3
  traveled : FP
  normal : IVec3

/-- The axis-advance arm of the loop body (shared by the `Some(AIR)` and
`None` branches). -/
def rayAdvance (step t_delta : FVec3) (s : RayState) : RayState :=
  if FP.lt s.t_max.x s.t_max.y then
    if FP.lt s.t_max.x s.t_max.z then
      { voxel := s.voxel + ⟨step.x.toI32, 0, 0⟩
        t_max := { s.t_max with x := s.t_max.x + t_delta.x }
        traveled := s.t_max.x
        normal := ⟨-step.x.toI32, 0, 0⟩ }
    else
      { voxel := s.voxel + ⟨0, 0, step.z.toI32⟩
        t_max := { s.t_max with z := s.t_max.z + t_delta.z }
        traveled := s.t_max.z
        normal := ⟨0, 0, -step.z.toI32⟩ }
  else if FP.lt s.t_max.y s.t_max.z then
    { voxel := s.voxel + ⟨0, step.y.toI32, 0⟩
      t_max := { s.t_max with y := s.t_max.y + t_delta.y }
      traveled := s.t_max.y
      normal := ⟨0, -step.y.toI32, 0⟩ }
  else
    { voxel := s.voxel + ⟨0, 0, step.z.toI32⟩
      t_max := { s.t_max with z := s.t_max.z + t_delta.z }
      traveled := s.t_max.z
      normal := ⟨0, 0, -step.z.toI32⟩ }

/-- One full guarded iteration of the `while traveled < max_distance`
loop of `ray_cast`: test the current voxel, return on a solid hit,
otherwise step along the axis with the smallest `t_max`.  The Rust loop
is unbounded; `fuel` bounds the recursion depth here and the runs below
return strictly inside the given fuel, so the bounded and unbounded
loops agree on them. -/
def rayLoop (st : ChunkManager) (step t_delta : FVec3) (max_distance : FP) :
    Nat → RayState → Option (IVec3 × IVec3)
  | 0, _ => none
  | n + 1, s =>
    if FP.lt s.traveled max_distance then
      match get_block st s.voxel with
      | some block =>
        if block ≠ Block.AIR then some (s.voxel, s.normal)
        else rayLoop st step t_delta max_distance n (rayAdvance step t_delta s)
      | none => rayLoop st step t_delta max_distance n (rayAdvance step t_delta s)
    else none

/-- `ChunkManager::ray_cast` from src/chunk_manager.rs.  The `f32`
`sin_cos` intrinsic is abstracted as the oracle pair `sinF`/`cosF`
(instantiated with its known exact values in the theorems below);
`fuel` bounds the loop as described at `rayLoop`. -/
def ray_cast (st : ChunkManager) (origin : FVec3) (yaw pitch : FP)
    (sinF cosF : FP → FP) (max_distance : FP) (fuel : Nat) :
    Option (IVec3 × IVec3) :=
  let yaw_sin := sinF yaw
  let yaw_cos := cosF yaw
  let pitch_sin := sinF pitch
  let pitch_cos := cosF pitch
  let direction : FVec3 :=
    ⟨yaw_cos * pitch_cos, pitch_sin, yaw_sin * pitch_cos⟩
  let step := direction.signum
  let t_delta :=
    ((FVec3.splat (FP.fin 1)).div direction).abs.fmin
      (FVec3.splat (FP.fin FP.f32max))
  let voxel := origin.floor.as_ivec3
  let t_max :=
    ((FVec3.ofIVec3 voxel).add (step.fmax (FVec3.splat (FP.fin 0)))).sub origin
      |>.div direction
  let t_max := t_max.fmax (FVec3.splat (FP.fin 0))
  rayLoop st step t_delta max_distance fuel
    { voxel := voxel, t_max := t_max, traveled := FP.fin 0, normal := IVec3.zero }

end ChunkManager

/-! ## Claim C4: the emptiness invariant -/

theorem allAir_const_air : Chunk.allAir (fun _ => Block.AIR) = true :=
  List.all_eq_true.mpr (fun _ _ => rfl)

theorem allAir_write_ne_air (bs : Nat → Block) (idx : Nat) (b : Block)
    (hb : b ≠ Block.AIR) (hidx : idx < CHUNK_SIZE * CHUNK_SIZE * CHUNK_SIZE) :
    Chunk.allAir (fun i => if i = idx then b else bs i) = false := by
  cases h : Chunk.allAir (fun i => if i = idx then b else bs i) with
  | false => rfl
  | true =>
    exfalso
    have := (List.all_eq_true.mp h) idx (List.mem_range.mpr hidx)
    simp only [if_pos rfl, beq_iff_eq] at this
    exact hb this

theorem newStep_inv (cv hv : IVec3 → Nat) (wp : IVec3) (c : Chunk)
    {p : Nat × Nat × Nat}
    (hp : p.1 < CHUNK_SIZE ∧ p.2.1 < CHUNK_SIZE ∧ p.2.2 < CHUNK_SIZE)
    (h : c.emptyInv) : (Chunk.newStep cv hv wp c p).emptyInv := by
  obtain ⟨x, y, z⟩ := p
  obtain ⟨hx, hy, hz⟩ := hp
  have hidx : Chunk.blockIndex x y z < CHUNK_SIZE * CHUNK_SIZE * CHUNK_SIZE := by
    simp only [Chunk.blockIndex, CHUNK_SIZE] at hx hy hz ⊢
    omega
  unfold Chunk.newStep
  dsimp only
  split
  · split
    · exact (allAir_write_ne_air c.blocks _ _ (by simp) hidx).symm
    · exact h
  · split
    · exact (allAir_write_ne_air c.blocks _ _ (by simp) hidx).symm
    · split
      · exact (allAir_write_ne_air c.blocks _ _ (by simp) hidx).symm
      · exact h

theorem foldl_newStep_inv (cv hv : IVec3 → Nat) (wp : IVec3) :
    ∀ (l : List (Nat × Nat × Nat)) (c : Chunk),
      (∀ p ∈ l, p.1 < CHUNK_SIZE ∧ p.2.1 < CHUNK_SIZE ∧ p.2.2 < CHUNK_SIZE) →
      c.emptyInv → (l.foldl (Chunk.newStep cv hv wp) c).emptyInv := by
  intro l
  induction l with
  | nil => intro c _ h; exact h
  | cons a t ih =>
    intro c hb h
    exact ih _ (fun p hp => hb p (List.mem_cons_of_mem _ hp))
      (newStep_inv cv hv wp c (hb a (List.mem_cons_self _ _)) h)

theorem new_inv (cv hv : IVec3 → Nat) (pos : IVec3) :
    (Chunk.new cv hv pos).emptyInv := by
  unfold Chunk.new
  refine foldl_newStep_inv cv hv _ allCells _
    (fun p hp => bounds_of_mem_allCells hp) ?_
  show true = Chunk.allAir (fun _ => Block.AIR)
  exact allAir_const_air.symm

theorem set_block_inv (c : Chunk) (pos : IVec3) (b : Block) (h : c.emptyInv) :
    ((c.set_block pos b).1).emptyInv := by
  unfold Chunk.set_block
  by_cases hc : c.blocks (CHUNK_SIZE * CHUNK_SIZE * pos.z.toNat
      + CHUNK_SIZE * pos.y.toNat + pos.x.toNat) ≠ b
  · rw [if_pos hc]
    unfold Chunk.emptyInv
    dsimp only
  · rw [if_neg hc]
    exact h

/-- C4: for every chunk, `is_empty` is `true` iff every element of
`blocks` equals AIR — the invariant (`emptyInv`) holds immediately after
`Chunk::new` (for every noise oracle and position), and is preserved by
every `Chunk::set_block` call, whether or not the written value differs
from the stored one. -/
theorem C4_emptiness_invariant (cv hv : IVec3 → Nat) (gpos : IVec3)
    (c : Chunk) (pos : IVec3) (b : Block) (h : c.emptyInv) :
    (Chunk.new cv hv gpos).emptyInv ∧ ((c.set_block pos b).1).emptyInv :=
  ⟨new_inv cv hv gpos, set_block_inv c pos b h⟩

/-- The all-AIR chunk at the origin, used as a concrete state below. -/
def chunkAir : Chunk :=
  { position := IVec3.zero
    world_position := IVec3.zero
    blocks := fun _ => Block.AIR
    is_empty := true
    mesh := none }

theorem chunkAir_inv : chunkAir.emptyInv := by
  show true = Chunk.allAir (fun _ => Block.AIR)
  exact allAir_const_air.symm

theorem C4_emptiness_invariant_witness :
    (Chunk.new (fun _ => 0) (fun _ => 0) IVec3.zero).emptyInv ∧
      ((chunkAir.set_block ⟨1, 2, 3⟩ Block.STONE).1).emptyInv :=
  C4_emptiness_invariant (fun _ => 0) (fun _ => 0) IVec3.zero
    chunkAir ⟨1, 2, 3⟩ Block.STONE chunkAir_inv

/-! ## Claim C5: the world / chunk / local coordinate decomposition -/

theorem roundf32_small {n : Int} (h : n.natAbs ≤ 2 ^ 24) :
    Chunk.roundf32 n = n := by
  unfold Chunk.roundf32
  rw [if_pos h]

theorem localComp_eq_emod (v : Int) : Chunk.localComp v = v % 32 := by
  have ht : v.tmod 32 % 32 = v % 32 := by
    rw [Int.tmod_def]
    rw [show v - 32 * v.tdiv 32 = v + 32 * (-(v.tdiv 32)) by ring]
    rw [Int.add_mul_emod_self_left]
  have hb : -32 < v.tmod 32 ∧ v.tmod 32 < 32 := by
    rcases v with m | m
    · have h1 : (Int.ofNat m).tmod 32 = ((m % 32 : Nat) : Int) := rfl
      rw [h1]; omega
    · have h1 : (Int.negSucc m).tmod 32 = -(((m + 1) % 32 : Nat) : Int) := rfl
      rw [h1]; omega
  have hcs : ((CHUNK_SIZE : Nat) : Int) = 32 := rfl
  unfold Chunk.localComp
  rw [hcs]
  by_cases hneg : v.tmod 32 < 0
  · rw [if_pos hneg]
    have h2 : (v.tmod 32 + 32) % 32 = v % 32 := by
      rw [show v.tmod 32 + 32 = v.tmod 32 + 32 * 1 by ring,
        Int.add_mul_emod_self_left, ht]
    rw [← h2, Int.emod_eq_of_lt (by omega) (by omega)]
  · rw [if_neg hneg]
    rw [← ht, Int.emod_eq_of_lt (by omega) (by omega)]

theorem localComp_component (v : Int) (h : v.natAbs ≤ 2 ^ 24) :
    (Chunk.roundf32 v).fdiv ((CHUNK_SIZE : Nat) : Int) * 32 + Chunk.localComp v = v := by
  rw [roundf32_small h, localComp_eq_emod,
    show ((CHUNK_SIZE : Nat) : Int) = 32 from rfl,
    Int.fdiv_eq_ediv _ (by norm_num)]
  omega

/-- C5 (amended): the local coordinate always lies in `[0, CHUNK_SIZE)`
on every axis (also for negative inputs), and the chunk/local
decomposition round-trips, `world_to_chunk_pos(W) * CHUNK_SIZE +
world_to_local_pos(W) = W`, for every world coordinate whose components
do not exceed `2^24` in magnitude (where the `i32 → f32` cast inside
`world_to_chunk_pos` is exact).  The unrestricted round-trip of the
original claim fails: see the counterexample. -/
theorem C5_coordinate_round_trip (w : IVec3) :
    (0 ≤ (Chunk.world_to_local_pos w).x ∧
      (Chunk.world_to_local_pos w).x < (CHUNK_SIZE : Int) ∧
     0 ≤ (Chunk.world_to_local_pos w).y ∧
      (Chunk.world_to_local_pos w).y < (CHUNK_SIZE : Int) ∧
     0 ≤ (Chunk.world_to_local_pos w).z ∧
      (Chunk.world_to_local_pos w).z < (CHUNK_SIZE : Int)) ∧
    (w.x.natAbs ≤ 2 ^ 24 → w.y.natAbs ≤ 2 ^ 24 → w.z.natAbs ≤ 2 ^ 24 →
      (Chunk.world_to_chunk_pos w).smul ((CHUNK_SIZE : Nat) : Int) +
        Chunk.world_to_local_pos w = w) := by
  have hrange : ∀ v : Int, 0 ≤ Chunk.localComp v ∧ Chunk.localComp v < 32 := by
    intro v
    rw [localComp_eq_emod]
    exact ⟨Int.emod_nonneg v (by norm_num), Int.emod_lt_of_pos v (by norm_num)⟩
  constructor
  · exact ⟨(hrange w.x).1, (hrange w.x).2, (hrange w.y).1, (hrange w.y).2,
      (hrange w.z).1, (hrange w.z).2⟩
  · intro hx hy hz
    obtain ⟨wx, wy, wz⟩ := w
    show IVec3.mk _ _ _ = IVec3.mk wx wy wz
    simp only [IVec3.mk.injEq]
    exact ⟨localComp_component wx hx, localComp_component wy hy,
      localComp_component wz hz⟩

/-- C5 counterexample: at `W = (33554431, 0, 0)` (that is `2^25 - 1`,
whose `f32` image is `2^25`), the decomposition does not round-trip:
`world_to_chunk_pos` yields chunk `1048576` while floor division gives
`1048575`, so `chunk * CHUNK_SIZE + local = 33554463 ≠ 33554431`. -/
theorem C5_counterexample :
    (Chunk.world_to_chunk_pos ⟨33554431, 0, 0⟩).smul ((CHUNK_SIZE : Nat) : Int) +
      Chunk.world_to_local_pos ⟨33554431, 0, 0⟩ ≠ (⟨33554431, 0, 0⟩ : IVec3) := by
  decide

/-! ## Claims C1 and C2: faces emitted by `generate_mesh` -/

/-- The vertex list of an optional mesh (empty when no mesh was built). -/
def meshVertices : Option ChunkMeshData → List Vertex
  | none => []
  | some md => md.vertices

namespace Chunk

/-- The block value the mesh pass culls against across `face` of cell
`(x, y, z)`: the in-chunk adjacent block when the adjacent cell is in
bounds, the wrapped lookup in `neighbors[face]` otherwise, and `none`
exactly when that lookup would need an absent neighbor chunk. -/
def adjBlock (c : Chunk) (nb : Nat → Option Chunk) (x y z face : Nat) :
    Option Block :=
  let n := adjCell x y z face
  if adjInBounds n then
    some (c.blocks (CHUNK_SIZE * CHUNK_SIZE * n.2.2.toNat
      + CHUNK_SIZE * n.2.1.toNat + n.1.toNat))
  else
    (nb face).map (fun ch => neighborBlockAt ch n)

theorem renderFace_eq_adjBlock (c : Chunk) (nb : Nat → Option Chunk)
    (x y z face : Nat) :
    renderFace c nb x y z face =
      ((adjBlock c nb x y z face).getD Block.AIR == Block.AIR) := by
  unfold renderFace adjBlock
  by_cases hin : adjInBounds (adjCell x y z face)
  · simp [hin]
  · cases hnb : nb face with
    | none => simp [hin, hnb]
    | some ch => simp [hin, hnb]

/-- The in-chunk adjacent cell as natural coordinates (meaningful when
`adjInBounds` holds). -/
def adjCellN (x y z face : Nat) : Nat × Nat × Nat :=
  ((adjCell x y z face).1.toNat, (adjCell x y z face).2.1.toNat,
   (adjCell x y z face).2.2.toNat)

/-- The face of the adjacent voxel that coincides with `face` of the
current voxel. -/
def oppFace : Nat → Nat
  | 0 => 1
  | 1 => 0
  | 2 => 3
  | 3 => 2
  | 4 => 5
  | _ => 4

theorem adjCellN_bounds {x y z face : Nat}
    (hb : adjInBounds (adjCell x y z face) = true) :
    (adjCellN x y z face).1 < CHUNK_SIZE ∧
    (adjCellN x y z face).2.1 < CHUNK_SIZE ∧
    (adjCellN x y z face).2.2 < CHUNK_SIZE := by
  simp only [adjInBounds, Bool.and_eq_true, decide_eq_true_eq] at hb
  simp only [adjCellN, CHUNK_SIZE] at *
  omega

/-- Stepping back across the opposite face from the (in-bounds) adjacent
cell returns to the original cell. -/
theorem adjCell_opp (x y z face : Nat) (hf : face < 6)
    (hb : adjInBounds (adjCell x y z face) = true) :
    adjCell (adjCellN x y z face).1 (adjCellN x y z face).2.1
        (adjCellN x y z face).2.2 (oppFace face) =
      ((x : Int), (y : Int), (z : Int)) := by
  simp only [adjInBounds, Bool.and_eq_true, decide_eq_true_eq] at hb
  interval_cases face <;>
    simp only [adjCellN, adjCell, oppFace] at hb ⊢ <;>
    · refine congrArg₂ _ (by omega) (congrArg₂ _ (by omega) (by omega))

end Chunk

theorem count_eq_one_of_nodup_of_mem {α : Type} [BEq α] [LawfulBEq α]
    {l : List α} {a : α} (nd : l.Nodup) (hm : a ∈ l) : l.count a = 1 := by
  induction l with
  | nil => cases hm
  | cons b t ih =>
    rw [List.count_cons]
    rcases List.mem_cons.mp hm with rfl | hmt
    · have hnot : a ∉ t := (List.nodup_cons.mp nd).1
      rw [List.count_eq_zero.mpr hnot]
      simp
    · have hne : a ≠ b := by
        rintro rfl
        exact (List.nodup_cons.mp nd).1 hmt
      rw [ih (List.nodup_cons.mp nd).2 hmt]
      simp [hne, Ne.symm hne]

/-- C2: for a chunk meshed with all six neighbor chunks present, for
every solid voxel and face: if the adjacent voxel (in this chunk or the
bordering one) is solid, the shared face is not among the emitted faces
— and when the adjacent voxel lies in the same chunk, neither is the
adjacent voxel's opposite face; if the adjacent voxel is AIR, the face
is emitted exactly once, as one quad of four vertices, and the mesh
`generate_mesh` returns is exactly the emitted-face quads with six
indices per face (`idxList`). -/
theorem C2_hidden_face_invariant (c : Chunk) (nb : Nat → Option Chunk)
    (_hnb : ∀ f, f < 6 → (nb f).isSome = true) (x y z f : Nat)
    (hx : x < CHUNK_SIZE) (hy : y < CHUNK_SIZE) (hz : z < CHUNK_SIZE)
    (hf : f < 6) (hsolid : c.blockAt x y z ≠ Block.AIR) :
    (∀ b, Chunk.adjBlock c nb x y z f = some b → b ≠ Block.AIR →
      ((x, y, z), f) ∉ Chunk.meshFaces c nb ∧
      (Chunk.adjInBounds (Chunk.adjCell x y z f) = true →
        (Chunk.adjCellN x y z f, Chunk.oppFace f) ∉ Chunk.meshFaces c nb)) ∧
    (Chunk.adjBlock c nb x y z f = some Block.AIR →
      (Chunk.meshFaces c nb).count ((x, y, z), f) = 1 ∧
      (Chunk.faceVerts c ((x, y, z), f)).length = 4) ∧
    (c.is_empty = false →
      Chunk.generate_mesh c nb =
        (some { vertices := (Chunk.meshFaces c nb).flatMap (Chunk.faceVerts c),
                indices := Chunk.idxList 0 (Chunk.meshFaces c nb).length },
         Chunk.cellFaces.any (Chunk.missingAt c nb))) := by
  refine ⟨?_, ?_, fun hemp => Chunk.generate_mesh_eq c nb hemp⟩
  · intro b hb hbne
    constructor
    · intro hmem
      have hemit := (List.mem_filter.mp hmem).2
      unfold Chunk.emitFace at hemit
      rw [Bool.and_eq_true] at hemit
      have hr := hemit.2
      rw [Chunk.renderFace_eq_adjBlock, hb] at hr
      exact hbne (by simpa using hr)
    · intro hin hmem
      have hemit := (List.mem_filter.mp hmem).2
      have hopp := Chunk.adjCell_opp x y z f hf hin
      unfold Chunk.emitFace at hemit
      rw [Bool.and_eq_true] at hemit
      have hr := hemit.2
      rw [Chunk.renderFace_eq_adjBlock] at hr
      have hinopp : Chunk.adjInBounds ((x : Int), (y : Int), (z : Int)) = true := by
        simp only [Chunk.adjInBounds, Bool.and_eq_true, decide_eq_true_eq]
        refine ⟨⟨⟨⟨⟨by omega, by exact_mod_cast hx⟩, by omega⟩, by exact_mod_cast hy⟩,
          by omega⟩, by exact_mod_cast hz⟩
      rw [Chunk.adjBlock] at hr
      rw [hopp] at hr
      simp only [hinopp, if_pos, Int.toNat_natCast, Option.getD_some, beq_iff_eq] at hr
      exact hsolid (by simpa [Chunk.blockAt, Chunk.blockIndex] using hr)
  · intro hair
    constructor
    · have hmem : ((x, y, z), f) ∈ Chunk.meshFaces c nb := by
        refine List.mem_filter.mpr ⟨mem_cellFaces hx hy hz hf, ?_⟩
        unfold Chunk.emitFace
        rw [Bool.and_eq_true, Chunk.renderFace_eq_adjBlock, hair]
        exact ⟨by simpa using hsolid, rfl⟩
      exact count_eq_one_of_nodup_of_mem (cellFaces_nodup.filter _) hmem
    · simp [Chunk.faceVerts]

/-- A chunk at the origin whose only solid voxels are STONE at local
cells `(0,0,0)` and `(1,0,0)`. -/
def chunkTwo : Chunk :=
  { position := IVec3.zero
    world_position := IVec3.zero
    blocks := fun i => if i = 0 ∨ i = 1 then Block.STONE else Block.AIR
    is_empty := false
    mesh := none }

/-- A full neighbor set: every one of the six bordering chunks is the
all-AIR chunk. -/
def nbAll : Nat → Option Chunk := fun _ => some chunkAir

theorem C2_hidden_face_invariant_witness :
    ((0, 0, 0), 3) ∉ Chunk.meshFaces chunkTwo nbAll ∧
      (Chunk.meshFaces chunkTwo nbAll).count ((0, 0, 0), 5) = 1 := by
  refine ⟨?_, ?_⟩
  · exact ((C2_hidden_face_invariant chunkTwo nbAll (fun _ _ => rfl) 0 0 0 3
      (by decide) (by decide) (by decide) (by decide) (by decide)).1
      Block.STONE (by decide) (by decide)).1
  · exact ((C2_hidden_face_invariant chunkTwo nbAll (fun _ _ => rfl) 0 0 0 5
      (by decide) (by decide) (by decide) (by decide) (by decide)).2.1
      (by decide)).1

/-- C1 (amended): when a solid voxel's face points at a cell outside the
chunk and the bordering chunk in `neighbors` is absent, `generate_mesh`
reports `missingNeighbors = true` — but, contrary to the original claim,
the face IS emitted (`render_face` is left `true` in that branch): the
face is among the emitted faces whose quads make up the returned
vertex list. -/
theorem C1_missing_neighbor_face (c : Chunk) (nb : Nat → Option Chunk)
    (x y z f : Nat) (hx : x < CHUNK_SIZE) (hy : y < CHUNK_SIZE)
    (hz : z < CHUNK_SIZE) (hf : f < 6) (hemp : c.is_empty = false)
    (hsolid : c.blockAt x y z ≠ Block.AIR)
    (hout : Chunk.adjInBounds (Chunk.adjCell x y z f) = false)
    (hnone : nb f = none) :
    (Chunk.generate_mesh c nb).2 = true ∧
    ((x, y, z), f) ∈ Chunk.meshFaces c nb ∧
    (Chunk.generate_mesh c nb).1 =
      some { vertices := (Chunk.meshFaces c nb).flatMap (Chunk.faceVerts c),
             indices := Chunk.idxList 0 (Chunk.meshFaces c nb).length } := by
  have heq := Chunk.generate_mesh_eq c nb hemp
  refine ⟨?_, ?_, by rw [heq]⟩
  · rw [heq]
    show Chunk.cellFaces.any (Chunk.missingAt c nb) = true
    refine List.any_eq_true.mpr ⟨((x, y, z), f), mem_cellFaces hx hy hz hf, ?_⟩
    unfold Chunk.missingAt
    simp only [hout, hnone, Option.isNone_none, Bool.not_false, Bool.and_true]
    simp [bne_iff_ne, hsolid]
  · refine List.mem_filter.mpr ⟨mem_cellFaces hx hy hz hf, ?_⟩
    unfold Chunk.emitFace
    rw [Bool.and_eq_true, Chunk.renderFace_eq_adjBlock]
    refine ⟨by simpa [bne_iff_ne] using hsolid, ?_⟩
    unfold Chunk.adjBlock
    simp [hout, hnone]

/-- A chunk at the origin whose only solid voxel is STONE at `(0,0,0)`. -/
def chunkOne : Chunk :=
  { position := IVec3.zero
    world_position := IVec3.zero
    blocks := fun i => if i = 0 then Block.STONE else Block.AIR
    is_empty := false
    mesh := none }

/-- The empty neighbor set: no bordering chunk is loaded. -/
def nbNone : Nat → Option Chunk := fun _ => none

theorem C1_missing_neighbor_face_witness :
    (Chunk.generate_mesh chunkOne nbNone).2 = true ∧
      ((0, 0, 0), 0) ∈ Chunk.meshFaces chunkOne nbNone := by
  have h := C1_missing_neighbor_face chunkOne nbNone 0 0 0 0 (by decide)
    (by decide) (by decide) (by decide) rfl (by decide) (by decide) rfl
  exact ⟨h.1, h.2.1⟩

/-- C1 counterexample: with the single STONE voxel at `(0,0,0)` and no
neighbor chunks loaded, the front face (face 0, toward the absent `-Z`
neighbor) is emitted even though `missingNeighbors` is reported: its
first packed vertex occurs in the generated vertex list.  The original
claim asserts this face is *not* emitted. -/
theorem C1_counterexample :
    (Chunk.generate_mesh chunkOne nbNone).2 = true ∧
      ({ packed_data := 6291456, voxel_position := ⟨0, 0, 0⟩ } : Vertex) ∈
        meshVertices (Chunk.generate_mesh chunkOne nbNone).1 := by
  have heq := Chunk.generate_mesh_eq chunkOne nbNone rfl
  have hb : (0 : Nat) < CHUNK_SIZE := by decide
  have hf : (0 : Nat) < 6 := by decide
  constructor
  · rw [heq]
    show Chunk.cellFaces.any (Chunk.missingAt chunkOne nbNone) = true
    exact List.any_eq_true.mpr
      ⟨((0, 0, 0), 0), mem_cellFaces hb hb hb hf, by decide⟩
  · rw [heq]
    show _ ∈ (Chunk.meshFaces chunkOne nbNone).flatMap (Chunk.faceVerts chunkOne)
    refine List.mem_flatMap.mpr ⟨((0, 0, 0), 0), ?_, by decide⟩
    exact List.mem_filter.mpr ⟨mem_cellFaces hb hb hb hf, by decide⟩

theorem C5_coordinate_round_trip_witness :
    (Chunk.world_to_chunk_pos ⟨-5, 70, 3⟩).smul ((CHUNK_SIZE : Nat) : Int) +
        Chunk.world_to_local_pos ⟨-5, 70, 3⟩ = (⟨-5, 70, 3⟩ : IVec3) ∧
      0 ≤ (Chunk.world_to_local_pos ⟨-5, 70, 3⟩).x :=
  ⟨(C5_coordinate_round_trip ⟨-5, 70, 3⟩).2 (by decide) (by decide) (by decide),
   ((C5_coordinate_round_trip ⟨-5, 70, 3⟩).1).1⟩

/-! ## Claim C6: reload-before-load priority in the mesh batch -/

theorem updateMissing_chunk_map (st : ChunkManager) (pos : IVec3) (b : Bool) :
    (ChunkManager.updateMissing st pos b).chunk_map = st.chunk_map := by
  unfold ChunkManager.updateMissing
  split <;> rfl

theorem updateMissing_data_queue (st : ChunkManager) (pos : IVec3) (b : Bool) :
    (ChunkManager.updateMissing st pos b).chunk_data_load_queue =
      st.chunk_data_load_queue := by
  unfold ChunkManager.updateMissing
  split <;> rfl

theorem updateMissing_load_queue (st : ChunkManager) (pos : IVec3) (b : Bool) :
    (ChunkManager.updateMissing st pos b).chunk_mesh_load_queue =
      st.chunk_mesh_load_queue := by
  unfold ChunkManager.updateMissing
  split <;> rfl

theorem applyMeshResult_load_queue (st : ChunkManager)
    (r : IVec3 × Option ChunkMeshData × Bool) :
    (ChunkManager.applyMeshResult st r).chunk_mesh_load_queue =
      st.chunk_mesh_load_queue := by
  obtain ⟨pos, mesh, missing⟩ := r
  unfold ChunkManager.applyMeshResult
  dsimp only
  split <;>
    first
      | exact updateMissing_load_queue st pos missing
      | (split <;>
          first
            | exact updateMissing_load_queue st pos missing
            | (split <;> exact updateMissing_load_queue st pos missing))

theorem foldl_applyMeshResult_load_queue
    (l : List (IVec3 × Option ChunkMeshData × Bool)) :
    ∀ st : ChunkManager,
      (l.foldl (fun st r => ChunkManager.applyMeshResult st (r.1, r.2.1, r.2.2))
        st).chunk_mesh_load_queue = st.chunk_mesh_load_queue := by
  induction l with
  | nil => intro st; rfl
  | cons a t ih =>
    intro st
    rw [List.foldl_cons, ih, applyMeshResult_load_queue]

/-- C6: when `build_chunk_mesh_in_queue` runs with `amount = 1` and the
reload set is non-empty, the task meshed in that call is the popped
reload coordinate, and the plain mesh-load queue is left untouched (so a
different queued plain-load coordinate remains queued). -/
theorem C6_reload_priority (st : ChunkManager) (A : IVec3) (rs : List IVec3)
    (hrel : st.chunk_mesh_reload_queue = A :: rs) :
    ChunkManager.mesh_tasks st 1 = [A] ∧
    (ChunkManager.build_chunk_mesh_in_queue st 1).chunk_mesh_load_queue =
      st.chunk_mesh_load_queue := by
  constructor
  · simp [ChunkManager.mesh_tasks, hrel]
  · unfold ChunkManager.build_chunk_mesh_in_queue
    rw [foldl_applyMeshResult_load_queue]
    simp [hrel]

/-- A state with one pending reload at `(1,0,0)` and one pending plain
load at `(2,0,0)`. -/
def stC6 : ChunkManager :=
  { chunk_map := []
    chunk_data_load_queue := []
    chunk_mesh_load_queue := [⟨2, 0, 0⟩]
    chunk_mesh_reload_queue := [⟨1, 0, 0⟩]
    chunk_neighbor_loaded_queue := []
    chunks_with_missing_neighbors := []
    render_distance := 0 }

theorem C6_reload_priority_witness :
    ChunkManager.mesh_tasks stC6 1 = [⟨1, 0, 0⟩] ∧
      (ChunkManager.build_chunk_mesh_in_queue stC6 1).chunk_mesh_load_queue =
        [⟨2, 0, 0⟩] :=
  ⟨(C6_reload_priority stC6 ⟨1, 0, 0⟩ [] rfl).1,
   (C6_reload_priority stC6 ⟨1, 0, 0⟩ [] rfl).2⟩

/-! ## Claim C8: orphaned mesh results are re-queued as data loads -/

theorem mapLookup_mapSet_none :
    ∀ (m : List (IVec3 × Chunk)) (k : IVec3) (v : Chunk) (q : IVec3),
      mapLookup m q = none → mapLookup (mapSet m k v) q = none := by
  intro m
  induction m with
  | nil => intro k v q h; exact h
  | cons kv t ih =>
    intro k v q h
    unfold mapLookup at h
    by_cases hkq : kv.1 = q
    · rw [if_pos hkq] at h; cases h
    · rw [if_neg hkq] at h
      unfold mapSet
      by_cases hkk : kv.1 = k
      · rw [if_pos hkk]
        unfold mapLookup
        rw [if_neg (by rw [← hkk]; exact hkq)]
        exact h
      · rw [if_neg hkk]
        unfold mapLookup
        rw [if_neg hkq]
        exact ih k v q h

theorem applyMeshResult_lookup_none (st : ChunkManager)
    (r : IVec3 × Option ChunkMeshData × Bool) (q : IVec3)
    (h : mapLookup st.chunk_map q = none) :
    mapLookup (ChunkManager.applyMeshResult st r).chunk_map q = none := by
  obtain ⟨pos, mesh, missing⟩ := r
  have hu : mapLookup (ChunkManager.updateMissing st pos missing).chunk_map q = none := by
    rw [updateMissing_chunk_map]; exact h
  unfold ChunkManager.applyMeshResult
  dsimp only
  split <;>
    first
      | exact hu
      | (exact mapLookup_mapSet_none _ _ _ _ hu)
      | (split <;>
          first
            | exact hu
            | exact mapLookup_mapSet_none _ _ _ _ hu
            | (split <;>
                first
                  | exact hu
                  | exact mapLookup_mapSet_none _ _ _ _ hu))

theorem applyMeshResult_data_mono (st : ChunkManager)
    (r : IVec3 × Option ChunkMeshData × Bool) (q : IVec3)
    (h : q ∈ st.chunk_data_load_queue) :
    q ∈ (ChunkManager.applyMeshResult st r).chunk_data_load_queue := by
  obtain ⟨pos, mesh, missing⟩ := r
  have hu : q ∈ (ChunkManager.updateMissing st pos missing).chunk_data_load_queue := by
    rw [updateMissing_data_queue]; exact h
  unfold ChunkManager.applyMeshResult
  dsimp only
  split <;>
    first
      | exact hu
      | exact List.mem_append_left _ hu
      | (split <;>
          first
            | exact hu
            | exact List.mem_append_left _ hu
            | (split <;>
                first
                  | exact hu
                  | exact List.mem_append_left _ hu))

theorem applyMeshResult_pushes (st : ChunkManager) (pos : IVec3)
    (mesh : Option ChunkMeshData) (missing : Bool)
    (h : mapLookup st.chunk_map pos = none) :
    pos ∈ (ChunkManager.applyMeshResult st (pos, mesh, missing)).chunk_data_load_queue := by
  have hu : mapLookup (ChunkManager.updateMissing st pos missing).chunk_map pos = none := by
    rw [updateMissing_chunk_map]; exact h
  unfold ChunkManager.applyMeshResult
  dsimp only
  rw [hu]
  exact List.mem_append_right _ (List.mem_singleton.mpr rfl)

theorem foldl_applyMeshResult_requeue (pos : IVec3) :
    ∀ (l : List (IVec3 × Option ChunkMeshData × Bool)) (st0 : ChunkManager),
      mapLookup st0.chunk_map pos = none →
      ((∃ m miss, (pos, m, miss) ∈ l) ∨ pos ∈ st0.chunk_data_load_queue) →
      pos ∈ (l.foldl
        (fun st r => ChunkManager.applyMeshResult st (r.1, r.2.1, r.2.2))
        st0).chunk_data_load_queue := by
  intro l
  induction l with
  | nil =>
    intro st0 _ hd
    rcases hd with ⟨_, _, hmem⟩ | hq
    · cases hmem
    · exact hq
  | cons a t ih =>
    intro st0 hnone hd
    rw [List.foldl_cons]
    have hnone1 := applyMeshResult_lookup_none st0 (a.1, a.2.1, a.2.2) pos hnone
    rcases hd with ⟨m, miss, hmem⟩ | hq
    · rcases List.mem_cons.mp hmem with rfl | hmt
      · exact ih _ hnone1 (Or.inr (applyMeshResult_pushes st0 pos m miss hnone))
      · exact ih _ hnone1 (Or.inl ⟨m, miss, hmt⟩)
    · exact ih _ hnone1 (Or.inr (applyMeshResult_data_mono st0 _ pos hq))

/-- C8: in `build_chunk_mesh_in_queue`, every dispatched meshing task
whose coordinate has no backing chunk in `chunk_map` when the results
are folded in ends up on `chunk_data_load_queue` — the coordinate is
never silently discarded. -/
theorem C8_orphaned_mesh_requeued (st : ChunkManager) (amount : Nat)
    (pos : IVec3) (htask : pos ∈ ChunkManager.mesh_tasks st amount)
    (hgone : mapLookup st.chunk_map pos = none) :
    pos ∈ (ChunkManager.build_chunk_mesh_in_queue st amount).chunk_data_load_queue := by
  unfold ChunkManager.build_chunk_mesh_in_queue
  dsimp only
  refine foldl_applyMeshResult_requeue pos _ _ hgone (Or.inl ⟨none, false, ?_⟩)
  refine List.mem_map.mpr ⟨pos, htask, ?_⟩
  rw [show mapLookup st.chunk_map pos = none from hgone]

/-- A state whose mesh-load queue holds `(7,7,7)` although no chunk is
loaded. -/
def stC8 : ChunkManager :=
  { chunk_map := []
    chunk_data_load_queue := []
    chunk_mesh_load_queue := [⟨7, 7, 7⟩]
    chunk_mesh_reload_queue := []
    chunk_neighbor_loaded_queue := []
    chunks_with_missing_neighbors := []
    render_distance := 0 }

theorem C8_orphaned_mesh_requeued_witness :
    (⟨7, 7, 7⟩ : IVec3) ∈
      (ChunkManager.build_chunk_mesh_in_queue stC8 1).chunk_data_load_queue :=
  C8_orphaned_mesh_requeued stC8 1 ⟨7, 7, 7⟩ (by decide) rfl

/-! ## Claim C7: which chunks a block edit queues for mesh reload -/

theorem mem_hsInsert (s : List IVec3) (v q : IVec3) :
    q ∈ hsInsert s v ↔ q ∈ s ∨ q = v := by
  unfold hsInsert
  by_cases hv : v ∈ s
  · rw [if_pos hv]
    constructor
    · exact Or.inl
    · rintro (h | rfl)
      · exact h
      · exact hv
  · rw [if_neg hv]
    rw [List.mem_append, List.mem_singleton]

theorem mapContains_mapSet :
    ∀ (m : List (IVec3 × Chunk)) (k : IVec3) (v : Chunk) (q : IVec3),
      mapContains (mapSet m k v) q = mapContains m q := by
  intro m
  induction m with
  | nil => intro k v q; rfl
  | cons kv t ih =>
    intro k v q
    by_cases hkk : kv.1 = k
    · rw [show mapSet (kv :: t) k v = (k, v) :: t by
        simp only [mapSet]; rw [if_pos hkk]]
      unfold mapContains
      simp only [mapLookup]
      by_cases hq : kv.1 = q
      · rw [if_pos (hkk.symm.trans hq), if_pos hq]
        rfl
      · rw [if_neg (fun h => hq (hkk.trans h)), if_neg hq]
    · rw [show mapSet (kv :: t) k v = kv :: mapSet t k v by
        simp only [mapSet]; rw [if_neg hkk]]
      unfold mapContains
      simp only [mapLookup]
      by_cases hq : kv.1 = q
      · rw [if_pos hq, if_pos hq]
      · rw [if_neg hq, if_neg hq]
        exact ih k v q

theorem foldl_neighbor_insert (base : IVec3) :
    ∀ (dirs : List IVec3) (st : ChunkManager),
      ((dirs.foldl (fun st dir =>
          let neighbor_pos := base + dir
          if mapContains st.chunk_map neighbor_pos then
            let q1 := hsInsert st.chunk_mesh_reload_queue neighbor_pos
            { st with chunk_mesh_reload_queue := q1 }
          else st) st).chunk_map = st.chunk_map) ∧
      ∀ q : IVec3,
        (q ∈ (dirs.foldl (fun st dir =>
            let neighbor_pos := base + dir
            if mapContains st.chunk_map neighbor_pos then
              let q1 := hsInsert st.chunk_mesh_reload_queue neighbor_pos
              { st with chunk_mesh_reload_queue := q1 }
            else st) st).chunk_mesh_reload_queue ↔
          q ∈ st.chunk_mesh_reload_queue ∨
            ∃ d ∈ dirs, q = base + d ∧
              mapContains st.chunk_map (base + d) = true) := by
  intro dirs
  induction dirs with
  | nil =>
    intro st
    refine ⟨rfl, fun q => ?_⟩
    simp
  | cons d t ih =>
    intro st
    rw [List.foldl_cons]
    dsimp only
    by_cases hc : mapContains st.chunk_map (base + d) = true
    · rw [if_pos hc]
      refine ⟨?_, fun q => ?_⟩
      · rw [(ih _).1]
      · rw [(ih _).2 q]
        dsimp only
        rw [mem_hsInsert]
        constructor
        · rintro ((hq | rfl) | ⟨e, he, rfl, hce⟩)
          · exact Or.inl hq
          · exact Or.inr ⟨d, List.mem_cons_self d t, rfl, hc⟩
          · exact Or.inr ⟨e, List.mem_cons_of_mem d he, rfl, hce⟩
        · rintro (hq | ⟨e, he, rfl, hce⟩)
          · exact Or.inl (Or.inl hq)
          · rcases List.mem_cons.mp he with rfl | het
            · exact Or.inl (Or.inr rfl)
            · exact Or.inr ⟨e, het, rfl, hce⟩
    · rw [if_neg hc]
      refine ⟨(ih st).1, fun q => ?_⟩
      rw [(ih st).2 q]
      constructor
      · rintro (hq | ⟨e, he, rfl, hce⟩)
        · exact Or.inl hq
        · exact Or.inr ⟨e, List.mem_cons_of_mem d he, rfl, hce⟩
      · rintro (hq | ⟨e, he, rfl, hce⟩)
        · exact Or.inl hq
        · rcases List.mem_cons.mp he with rfl | het
          · exact absurd hce hc
          · exact Or.inr ⟨e, het, rfl, hce⟩

/-- C7 (amended): a `ChunkManager::set_block` that changes a stored
value marks for mesh reload the owning chunk's coordinate together with
every face-adjacent chunk coordinate that is currently loaded — in all
six directions, whether or not the edited voxel touches that boundary —
and nothing else; an adjacent chunk that is not loaded is not enqueued,
even when the voxel lies on its shared boundary. -/
theorem C7_edit_invalidation (st : ChunkManager) (position : IVec3)
    (block : Block) (chunk : Chunk)
    (hm : mapLookup st.chunk_map (Chunk.world_to_chunk_pos position) = some chunk)
    (hch : (chunk.set_block (Chunk.world_to_local_pos position) block).2 = true)
    (q : IVec3) :
    q ∈ (ChunkManager.set_block st position block).chunk_mesh_reload_queue ↔
      q ∈ st.chunk_mesh_reload_queue ∨
        q = Chunk.world_to_chunk_pos position ∨
        ∃ d ∈ ChunkManager.sixDirs, q = Chunk.world_to_chunk_pos position + d ∧
          mapContains st.chunk_map (Chunk.world_to_chunk_pos position + d) = true := by
  unfold ChunkManager.set_block
  dsimp only
  rw [hm]
  dsimp only
  rw [if_pos hch]
  have hfold := foldl_neighbor_insert (Chunk.world_to_chunk_pos position)
    ChunkManager.sixDirs
    { st with
        chunk_map := mapSet st.chunk_map (Chunk.world_to_chunk_pos position)
          (chunk.set_block (Chunk.world_to_local_pos position) block).1
        chunk_mesh_reload_queue := hsInsert st.chunk_mesh_reload_queue
          (Chunk.world_to_chunk_pos position) }
  rw [hfold.2 q]
  dsimp only
  rw [mem_hsInsert]
  constructor
  · rintro ((hq | rfl) | ⟨e, he, rfl, hce⟩)
    · exact Or.inl hq
    · exact Or.inr (Or.inl rfl)
    · rw [mapContains_mapSet] at hce
      exact Or.inr (Or.inr ⟨e, he, rfl, hce⟩)
  · rintro (hq | rfl | ⟨e, he, rfl, hce⟩)
    · exact Or.inl (Or.inl hq)
    · exact Or.inl (Or.inr rfl)
    · rw [← mapContains_mapSet st.chunk_map (Chunk.world_to_chunk_pos position)
        (chunk.set_block (Chunk.world_to_local_pos position) block).1] at hce
      exact Or.inr ⟨e, he, rfl, hce⟩

/-- A state with the all-AIR chunks at `(0,0,0)` and `(1,0,0)` loaded
and all queues empty. -/
def stC7 : ChunkManager :=
  { chunk_map := [(⟨0, 0, 0⟩, chunkAir), (⟨1, 0, 0⟩, chunkAir)]
    chunk_data_load_queue := []
    chunk_mesh_load_queue := []
    chunk_mesh_reload_queue := []
    chunk_neighbor_loaded_queue := []
    chunks_with_missing_neighbors := []
    render_distance := 0 }

theorem C7_edit_invalidation_witness :
    (⟨1, 0, 0⟩ : IVec3) ∈
      (ChunkManager.set_block stC7 ⟨0, 5, 5⟩ Block.STONE).chunk_mesh_reload_queue :=
  (C7_edit_invalidation stC7 ⟨0, 5, 5⟩ Block.STONE chunkAir rfl rfl ⟨1, 0, 0⟩).mpr
    (Or.inr (Or.inr ⟨⟨1, 0, 0⟩, by decide, by decide, rfl⟩))

/-- C7 counterexample: editing the boundary voxel `(0,5,5)` (on the
`-X` face of chunk `(0,0,0)`, shared with the unloaded chunk
`(-1,0,0)`) enqueues `(0,0,0)` and the loaded — but non-boundary —
neighbor `(1,0,0)`, and does not enqueue `(-1,0,0)`: the original
claim's 'exactly the owner and the boundary-sharing chunk' is false on
both counts. -/
theorem C7_counterexample :
    (ChunkManager.set_block stC7 ⟨0, 5, 5⟩ Block.STONE).chunk_mesh_reload_queue =
        [⟨0, 0, 0⟩, ⟨1, 0, 0⟩] ∧
      (⟨-1, 0, 0⟩ : IVec3) ∉
        (ChunkManager.set_block stC7 ⟨0, 5, 5⟩ Block.STONE).chunk_mesh_reload_queue := by
  decide

/-! ## Claim C3: the streaming window after `update_around` -/

theorem mem_intRangeClosed {a b v : Int}
    (h : v ∈ ChunkManager.intRangeClosed a b) : a ≤ v ∧ v ≤ b := by
  unfold ChunkManager.intRangeClosed at h
  obtain ⟨j, hj, hv⟩ := List.mem_map.mp h
  rw [List.mem_range] at hj
  omega

theorem mem_windowOffsets {rd : Int} {off : IVec3}
    (h : off ∈ ChunkManager.windowOffsets rd) :
    -rd ≤ off.x ∧ off.x ≤ rd ∧ -rd ≤ off.y ∧ off.y ≤ rd ∧
      -rd ≤ off.z ∧ off.z ≤ rd := by
  simp only [ChunkManager.windowOffsets, List.mem_flatMap, List.mem_map] at h
  obtain ⟨x, hx, y, hy, z, hz, rfl⟩ := h
  obtain ⟨hx1, hx2⟩ := mem_intRangeClosed hx
  obtain ⟨hy1, hy2⟩ := mem_intRangeClosed hy
  obtain ⟨hz1, hz2⟩ := mem_intRangeClosed hz
  exact ⟨hx1, hx2, hy1, hy2, hz1, hz2⟩

theorem withinWindow_of_offset {rd : Int} {position off : IVec3}
    (h : off ∈ ChunkManager.windowOffsets rd) :
    ChunkManager.withinWindow rd position (off + position) = true := by
  obtain ⟨h1, h2, h3, h4, h5, h6⟩ := mem_windowOffsets h
  simp only [ChunkManager.withinWindow, IVec3.add_x, IVec3.add_y, IVec3.add_z,
    Bool.and_eq_true, decide_eq_true_eq, ge_iff_le]
  refine ⟨⟨⟨⟨⟨by omega, by omega⟩, by omega⟩, by omega⟩, by omega⟩, by omega⟩

theorem pushFold_spec (position : IVec3) :
    ∀ (l : List IVec3) (st : ChunkManager),
      ((l.foldl (fun st off =>
          let chunk_pos := off + position
          if !mapContains st.chunk_map chunk_pos &&
              !st.chunk_data_load_queue.contains chunk_pos then
            let q6 := st.chunk_data_load_queue ++ [chunk_pos]
            { st with chunk_data_load_queue := q6 }
          else st) st).chunk_mesh_load_queue = st.chunk_mesh_load_queue) ∧
      ((l.foldl (fun st off =>
          let chunk_pos := off + position
          if !mapContains st.chunk_map chunk_pos &&
              !st.chunk_data_load_queue.contains chunk_pos then
            let q6 := st.chunk_data_load_queue ++ [chunk_pos]
            { st with chunk_data_load_queue := q6 }
          else st) st).chunk_map = st.chunk_map) ∧
      ((l.foldl (fun st off =>
          let chunk_pos := off + position
          if !mapContains st.chunk_map chunk_pos &&
              !st.chunk_data_load_queue.contains chunk_pos then
            let q6 := st.chunk_data_load_queue ++ [chunk_pos]
            { st with chunk_data_load_queue := q6 }
          else st) st).chunk_neighbor_loaded_queue =
        st.chunk_neighbor_loaded_queue) ∧
      ((l.foldl (fun st off =>
          let chunk_pos := off + position
          if !mapContains st.chunk_map chunk_pos &&
              !st.chunk_data_load_queue.contains chunk_pos then
            let q6 := st.chunk_data_load_queue ++ [chunk_pos]
            { st with chunk_data_load_queue := q6 }
          else st) st).chunks_with_missing_neighbors =
        st.chunks_with_missing_neighbors) ∧
      ∀ q, q ∈ (l.foldl (fun st off =>
          let chunk_pos := off + position
          if !mapContains st.chunk_map chunk_pos &&
              !st.chunk_data_load_queue.contains chunk_pos then
            let q6 := st.chunk_data_load_queue ++ [chunk_pos]
            { st with chunk_data_load_queue := q6 }
          else st) st).chunk_data_load_queue →
        q ∈ st.chunk_data_load_queue ∨ ∃ off ∈ l, q = off + position := by
  intro l
  induction l with
  | nil =>
    intro st
    exact ⟨rfl, rfl, rfl, rfl, fun q hq => Or.inl hq⟩
  | cons o t ih =>
    intro st
    rw [List.foldl_cons]
    dsimp only
    by_cases hc : (!mapContains st.chunk_map (o + position) &&
        !st.chunk_data_load_queue.contains (o + position)) = true
    · rw [if_pos hc]
      obtain ⟨i1, i2, i3, i4, i5⟩ := ih { st with chunk_data_load_queue :=
        st.chunk_data_load_queue ++ [o + position] }
      refine ⟨i1, i2, i3, i4, fun q hq => ?_⟩
      rcases i5 q hq with hmem | ⟨off, hoff, rfl⟩
      · rcases List.mem_append.mp hmem with hmem | hsing
        · exact Or.inl hmem
        · exact Or.inr ⟨o, List.mem_cons_self o t,
            (List.mem_singleton.mp hsing)⟩
      · exact Or.inr ⟨off, List.mem_cons_of_mem o hoff, rfl⟩
    · rw [if_neg hc]
      obtain ⟨i1, i2, i3, i4, i5⟩ := ih st
      refine ⟨i1, i2, i3, i4, fun q hq => ?_⟩
      rcases i5 q hq with hmem | ⟨off, hoff, rfl⟩
      · exact Or.inl hmem
      · exact Or.inr ⟨off, List.mem_cons_of_mem o hoff, rfl⟩

/-- C3 (amended): immediately after `update_around(c)`, every coordinate
in `chunk_data_load_queue`, `chunk_mesh_load_queue`,
`chunk_neighbor_loaded_queue` and `chunks_with_missing_neighbors`, and
the stored position of every chunk in `chunk_map`, lies within the
per-axis window of radius `render_distance` around `c` (Chebyshev
distance at most `render_distance`; the map's `retain` tests the chunk's
own `position` field, which equals its key in every reachable state).
The original claim also covered `chunk_mesh_reload_queue`, which
`update_around` does not prune — see the counterexample. -/
theorem C3_streaming_window (st : ChunkManager) (c : IVec3) (q : IVec3)
    (kv : IVec3 × Chunk) :
    (q ∈ (ChunkManager.update_around st c).chunk_data_load_queue →
      ChunkManager.withinWindow st.render_distance c q = true) ∧
    (q ∈ (ChunkManager.update_around st c).chunk_mesh_load_queue →
      ChunkManager.withinWindow st.render_distance c q = true) ∧
    (kv ∈ (ChunkManager.update_around st c).chunk_map →
      ChunkManager.withinWindow st.render_distance c kv.2.position = true) ∧
    (q ∈ (ChunkManager.update_around st c).chunk_neighbor_loaded_queue →
      ChunkManager.withinWindow st.render_distance c q = true) ∧
    (q ∈ (ChunkManager.update_around st c).chunks_with_missing_neighbors →
      ChunkManager.withinWindow st.render_distance c q = true) := by
  unfold ChunkManager.update_around
  dsimp only
  have hfold := pushFold_spec c (ChunkManager.windowOffsets st.render_distance)
    { st with
        chunk_data_load_queue :=
          st.chunk_data_load_queue.filter
            (ChunkManager.withinWindow st.render_distance c)
        chunk_mesh_load_queue :=
          st.chunk_mesh_load_queue.filter
            (ChunkManager.withinWindow st.render_distance c)
        chunk_map :=
          st.chunk_map.filter
            (fun kv => ChunkManager.withinWindow st.render_distance c
              kv.2.position)
        chunk_neighbor_loaded_queue :=
          st.chunk_neighbor_loaded_queue.filter
            (ChunkManager.withinWindow st.render_distance c)
        chunks_with_missing_neighbors :=
          st.chunks_with_missing_neighbors.filter
            (ChunkManager.withinWindow st.render_distance c) }
  obtain ⟨h1, h2, h3, h4, h5⟩ := hfold
  refine ⟨?_, ?_, ?_, ?_, ?_⟩
  · intro hq
    rw [List.mem_insertionSort] at hq
    rcases h5 q hq with hmem | ⟨off, hoff, rfl⟩
    · exact (List.mem_filter.mp hmem).2
    · exact withinWindow_of_offset hoff
  · intro hq
    rw [h1] at hq
    exact (List.mem_filter.mp hq).2
  · intro hkv
    rw [h2] at hkv
    exact (List.mem_filter.mp hkv).2
  · intro hq
    rw [h3] at hq
    exact (List.mem_filter.mp hq).2
  · intro hq
    rw [h4] at hq
    exact (List.mem_filter.mp hq).2

/-- A state whose reload set holds the far-away coordinate
`(100,100,100)` with streaming radius 1. -/
def stC3 : ChunkManager :=
  { chunk_map := []
    chunk_data_load_queue := []
    chunk_mesh_load_queue := []
    chunk_mesh_reload_queue := [⟨100, 100, 100⟩]
    chunk_neighbor_loaded_queue := []
    chunks_with_missing_neighbors := []
    render_distance := 1 }

set_option maxRecDepth 100000 in
/-- C3 counterexample: `update_around` prunes five of the six
collections but never touches `chunk_mesh_reload_queue`, so after
`update_around((0,0,0))` with radius 1 the coordinate `(100,100,100)` —
Chebyshev distance 100 from the center — is still queued there. -/
theorem C3_counterexample :
    (⟨100, 100, 100⟩ : IVec3) ∈
        (ChunkManager.update_around stC3 ⟨0, 0, 0⟩).chunk_mesh_reload_queue ∧
      ChunkManager.withinWindow stC3.render_distance ⟨0, 0, 0⟩
        ⟨100, 100, 100⟩ = false := by
  decide

/-- The empty manager with streaming radius 1. -/
def stC3w : ChunkManager :=
  { chunk_map := []
    chunk_data_load_queue := []
    chunk_mesh_load_queue := []
    chunk_mesh_reload_queue := []
    chunk_neighbor_loaded_queue := []
    chunks_with_missing_neighbors := []
    render_distance := 1 }

set_option maxRecDepth 100000 in
theorem C3_streaming_window_witness :
    (⟨0, 0, 0⟩ : IVec3) ∈
        (ChunkManager.update_around stC3w ⟨0, 0, 0⟩).chunk_data_load_queue ∧
      ChunkManager.withinWindow stC3w.render_distance ⟨0, 0, 0⟩ ⟨0, 0, 0⟩ = true :=
  ⟨by decide,
   (C3_streaming_window stC3w ⟨0, 0, 0⟩ ⟨0, 0, 0⟩ (⟨0, 0, 0⟩, chunkAir)).1
     (by decide)⟩

/-! ## Claims C9 and C10: the voxel ray cast -/

theorem rayLoop_mono (st : ChunkManager) (step t_delta : FVec3) (maxD : FP) :
    ∀ (n : Nat) (s : ChunkManager.RayState) (r : IVec3 × IVec3),
      ChunkManager.rayLoop st step t_delta maxD n s = some r →
      ∀ m, n ≤ m → ChunkManager.rayLoop st step t_delta maxD m s = some r := by
  intro n
  induction n with
  | zero => intro s r h; cases h
  | succ k ih =>
    intro s r h m hm
    obtain ⟨m', rfl⟩ : ∃ m', m = m' + 1 := ⟨m - 1, by omega⟩
    unfold ChunkManager.rayLoop at h ⊢
    by_cases hlt : FP.lt s.traveled maxD = true
    · rw [if_pos hlt] at h ⊢
      cases hgb : ChunkManager.get_block st s.voxel with
      | some b =>
        rw [hgb] at h
        dsimp only at h ⊢
        by_cases hbne : b ≠ Block.AIR
        · rw [if_pos hbne] at h ⊢
          exact h
        · rw [if_neg hbne] at h ⊢
          exact ih _ r h m' (by omega)
      | none =>
        rw [hgb] at h
        dsimp only at h ⊢
        exact ih _ r h m' (by omega)
    · rw [if_neg hlt] at h
      cases h

/-- C10: whenever the voxel containing the ray origin (component-wise
floor, as the code computes it) is backed by a loaded chunk and holds a
non-AIR block, `ray_cast` returns that voxel with face normal `(0,0,0)`:
the solid test precedes the first grid step, so the loop returns before
any normal has been set — for every state, origin, yaw, pitch,
trigonometry oracle, positive `max_distance` and at least one loop
iteration of fuel. -/
theorem C10_origin_inside_solid (st : ChunkManager) (origin : FVec3)
    (yaw pitch : FP) (sinF cosF : FP → FP) (max_distance : FP) (fuel : Nat)
    (hfuel : 1 ≤ fuel) (hpos : FP.lt (FP.fin 0) max_distance = true)
    (b : Block) (hb : ChunkManager.get_block st origin.floor.as_ivec3 = some b)
    (hbne : b ≠ Block.AIR) :
    ChunkManager.ray_cast st origin yaw pitch sinF cosF max_distance fuel =
      some (origin.floor.as_ivec3, IVec3.zero) := by
  obtain ⟨n, rfl⟩ : ∃ n, fuel = n + 1 := ⟨fuel - 1, by omega⟩
  unfold ChunkManager.ray_cast
  dsimp only
  unfold ChunkManager.rayLoop
  rw [if_pos hpos, hb]
  dsimp only
  rw [if_pos hbne]

/-- The chunk at the origin whose only solid voxel is STONE at local
cell `(5,5,5)` (flat index 5285). -/
def chunkStone : Chunk :=
  { position := IVec3.zero
    world_position := IVec3.zero
    blocks := fun i => if i = 5285 then Block.STONE else Block.AIR
    is_empty := false
    mesh := none }

/-- The manager state holding only `chunkStone`: a single STONE voxel at
world coordinate `(5,5,5)` in an otherwise empty loaded region. -/
def stC9 : ChunkManager :=
  { chunk_map := [(⟨0, 0, 0⟩, chunkStone)]
    chunk_data_load_queue := []
    chunk_mesh_load_queue := []
    chunk_mesh_reload_queue := []
    chunk_neighbor_loaded_queue := []
    chunks_with_missing_neighbors := []
    render_distance := 1 }

theorem C10_origin_inside_solid_witness :
    ChunkManager.ray_cast stC9
        ⟨FP.fin ((11 : ℚ) / 2), FP.fin ((11 : ℚ) / 2),
          FP.fin ((11 : ℚ) / 2)⟩
        (FP.fin 0) (FP.fin 0) (fun _ => FP.fin 0) (fun _ => FP.fin 1)
        (FP.fin 10) 1 =
      some ((⟨FP.fin ((11 : ℚ) / 2), FP.fin ((11 : ℚ) / 2),
        FP.fin ((11 : ℚ) / 2)⟩ : FVec3).floor.as_ivec3, IVec3.zero) :=
  C10_origin_inside_solid stC9 _ (FP.fin 0) (FP.fin 0) _ _ (FP.fin 10) 1
    (by omega) (by decide) Block.STONE (by with_unfolding_all decide)
    (by decide)

set_option maxRecDepth 100000 in
/-- C9: in `stC9` (one STONE voxel at `(5,5,5)`), casting from
`(0,5,5)` with yaw 0 and pitch 0 — direction `+X`, using any
trigonometry oracle with the exact `f32` values `sin 0 = 0`,
`cos 0 = 1` — and `max_distance = 10` hits `(5,5,5)` through the
`(-1,0,0)` face, for every fuel bound covering the six loop
iterations the traversal needs. -/
theorem C9_ray_cast_scenario (sinF cosF : FP → FP)
    (hsin : sinF (FP.fin 0) = FP.fin 0) (hcos : cosF (FP.fin 0) = FP.fin 1)
    (fuel : Nat) (hfuel : 6 ≤ fuel) :
    ChunkManager.ray_cast stC9 ⟨FP.fin 0, FP.fin 5, FP.fin 5⟩ (FP.fin 0)
        (FP.fin 0) sinF cosF (FP.fin 10) fuel =
      some (⟨5, 5, 5⟩, ⟨-1, 0, 0⟩) := by
  have hbase : ChunkManager.ray_cast stC9 ⟨FP.fin 0, FP.fin 5, FP.fin 5⟩
      (FP.fin 0) (FP.fin 0) (fun _ => FP.fin 0) (fun _ => FP.fin 1)
      (FP.fin 10) 6 = some (⟨5, 5, 5⟩, ⟨-1, 0, 0⟩) := by
    with_unfolding_all decide
  unfold ChunkManager.ray_cast at hbase ⊢
  rw [hsin, hcos]
  exact rayLoop_mono _ _ _ _ 6 _ _ hbase fuel hfuel

set_option maxRecDepth 100000 in
theorem C9_ray_cast_scenario_witness :
    ChunkManager.ray_cast stC9 ⟨FP.fin 0, FP.fin 5, FP.fin 5⟩ (FP.fin 0)
        (FP.fin 0) (fun _ => FP.fin 0) (fun _ => FP.fin 1) (FP.fin 10) 6 =
      some (⟨5, 5, 5⟩, ⟨-1, 0, 0⟩) :=
  C9_ray_cast_scenario (fun _ => FP.fin 0) (fun _ => FP.fin 1) rfl rfl 6
    (by omega)
